import Mathlib

/-
Verification of the receipt-index ingestion pipeline.

The Lean definitions below are a shallow embedding of the Python modules
`receipt_index/store.py`, `receipt_index/renderer.py`,
`receipt_index/extraction.py`, `receipt_index/models.py` and
`receipt_index/adapters/imap.py`.  Pure Python functions become Lean
functions; the filesystem is explicit state (an association list of
relative paths to byte lists); stdlib and third-party collaborators
(`slugify`, `hashlib.sha256`, `base64`, `html.escape`, the HTML tag
stripper and `email.utils.parsedate_to_datetime`) are either implemented
faithfully for the inputs the code feeds them, or passed as explicit
function parameters where they are opaque (the weasyprint PDF engine,
RFC 2047 header decoding).
-/
set_option maxRecDepth 4096

/- Python-style character and string helpers (ASCII fragment). -/
/-- The whitespace characters recognised by Python's `str.strip` (ASCII part). -/
def pyWhitespaceChar (c : Char) : Bool :=
  c = ' ' || c = '\t' || c = '\n' || c = '\r' || c = '\x0b' || c = '\x0c'

/-- Python `str.strip()`: drop leading and trailing whitespace. -/
def pyStrip (s : String) : String :=
  ⟨((s.data.dropWhile pyWhitespaceChar).reverse.dropWhile pyWhitespaceChar).reverse⟩

/-- ASCII lower-casing of one character, as `str.lower` acts on ASCII letters. -/
def pyLowerChar (c : Char) : Char :=
  if c.toNat ≥ 65 ∧ c.toNat ≤ 90 then Char.ofNat (c.toNat + 32) else c

/-- Python `str.lower()` on ASCII strings. -/
def pyLower (s : String) : String := ⟨s.data.map pyLowerChar⟩

/- Decimal rendering of natural numbers, mirroring Python `str(int)` for
nonnegative values.  The recursion is fuelled so that the kernel can
evaluate it; `natReprChars_fuel` shows the fuel is irrelevant once it
exceeds the argument. -/
/-- The decimal digit character for `n % 10`. -/
def digitChar (n : Nat) : Char :=
  match n with
  | 0 => '0' | 1 => '1' | 2 => '2' | 3 => '3' | 4 => '4'
  | 5 => '5' | 6 => '6' | 7 => '7' | 8 => '8' | _ => '9'

def natReprCharsAux : Nat → Nat → List Char
  | 0, _ => []
  | fuel + 1, n =>
    if n < 10 then [digitChar n]
    else natReprCharsAux fuel (n / 10) ++ [digitChar (n % 10)]

/-- Decimal digit string of `n`, most significant digit first: `str(n)`. -/
def natReprChars (n : Nat) : List Char := natReprCharsAux (n + 1) n

/-- `str(n)` as a Lean string. -/
def natRepr (n : Nat) : String := ⟨natReprChars n⟩

/-- Numeric value of a decimal digit character. -/
def digitVal (c : Char) : Nat := c.toNat - 48

/-- Decimal parse of a digit list (most significant first). -/
def digitsVal (l : List Char) : Nat := l.foldl (fun a c => 10 * a + digitVal c) 0

/- Calendar dates (`datetime.date`).  Python restricts years to 1..9999;
`isoformat()` zero-pads to 4-2-2. -/
structure PyDate where
  year : Nat
  month : Nat
  day : Nat
deriving DecidableEq, Repr

/-- Zero-padded two-digit rendering, as `f"{n:02d}"` for `0 ≤ n < 100`. -/
def pad2 (n : Nat) : String :=
  if n < 10 then "0" ++ natRepr n else natRepr n

/-- Zero-padded four-digit rendering, as date years render in `isoformat`. -/
def pad4 (n : Nat) : String :=
  if n < 10 then "000" ++ natRepr n
  else if n < 100 then "00" ++ natRepr n
  else if n < 1000 then "0" ++ natRepr n
  else natRepr n

/-- `date.isoformat()`: `YYYY-MM-DD`. -/
def isoDate (d : PyDate) : String :=
  pad4 d.year ++ "-" ++ pad2 d.month ++ "-" ++ pad2 d.day

/- Timezone-aware timestamps (`datetime.datetime`) are abstracted by their
ISO-8601 rendering, the only view of them the embedded code uses. -/
structure PyDateTime where
  iso : String
deriving DecidableEq, Repr

/-- `datetime.isoformat()`. -/
def isoDateTime (t : PyDateTime) : String := t.iso

/- Data model (`receipt_index/models.py`). -/
/-- Byte sequences are lists of values `< 256`. -/
abbrev Bytes := List Nat

/-- `Attachment`: an email attachment (models.py). -/
structure Attachment where
  filename : String
  content_type : String
  data : Bytes
deriving DecidableEq, Repr

/-- `RawReceipt`: raw receipt data from a source adapter (models.py). -/
structure RawReceipt where
  source_id : String
  subject : String
  sender : String
  date : PyDateTime
  html_body : Option String := none
  text_body : Option String := none
  attachments : List Attachment := []
deriving DecidableEq, Repr

/- The local filesystem under the store root, as explicit state: an
association list from relative paths to file bytes; a write prepends, a
read takes the most recent entry. -/
abbrev FS := List (String × Bytes)

/-- Bytes currently stored at relative path `p`. -/
def fsRead (fs : FS) (p : String) : Option Bytes :=
  (fs.find? (fun e => e.1 = p)).map (fun e => e.2)

/-- `Path.exists()` relative to the store root. -/
def fsExists (fs : FS) (p : String) : Bool :=
  (fsRead fs p).isSome

/-- `Path.write_bytes`. -/
def fsWrite (fs : FS) (p : String) (d : Bytes) : FS := (p, d) :: fs

/- Third-party `python-slugify`, as the store calls it:
`slugify(vendor, max_length=50)`.  Modelled for ASCII input: letters are
lower-cased, maximal runs of characters outside `[a-z0-9]` (quotes
included, which the library turns into separators in a pre-pass) are
replaced by a single hyphen, edge hyphens are stripped, and the result
is truncated to 50 characters (then stripped of a trailing hyphen, as
`smart_truncate` does).  Unicode normalisation and the digit-comma
collapsing of the real library are not modelled; no claim depends on
them. -/
/-- Characters a slug may keep: `[a-z0-9]`. -/
def slugAllowedChar (c : Char) : Bool :=
  (97 ≤ c.toNat && c.toNat ≤ 122) || (48 ≤ c.toNat && c.toNat ≤ 57)

/-- Replace each maximal run of non-`[a-z0-9]` characters by one hyphen.
The flag records whether the previous character was part of such a run. -/
def slugReplaceAux : Bool → List Char → List Char
  | _, [] => []
  | afterSep, c :: rest =>
    if slugAllowedChar c then c :: slugReplaceAux false rest
    else if afterSep then slugReplaceAux true rest
    else '-' :: slugReplaceAux true rest

/-- Strip hyphens from both ends. -/
def stripDashes (l : List Char) : List Char :=
  ((l.dropWhile (fun c => c = '-')).reverse.dropWhile (fun c => c = '-')).reverse

/-- `slugify(s, max_length=50)` on the character list. -/
def slugifyChars (s : List Char) : List Char :=
  let cleaned := slugReplaceAux false (s.map pyLowerChar)
  stripDashes ((stripDashes cleaned).take 50)

/-- `LocalFileStore._slugify_vendor`: `str(slugify(vendor, max_length=50))`. -/
def slugify_vendor (vendor : String) : String := ⟨slugifyChars vendor.data⟩

/- `LocalFileStore` (store.py).  `amount` is carried as its exact decimal
string representation, which is all `save` uses of the `Decimal`
(`f"...__{amount}.pdf"`). -/
/-- The filename the collision loop tries for counter `c` (`c = 1` is the
initial name; for `c ≥ 2` the numeric suffix sits before the extension). -/
def fileNameOf (base : String) (c : Nat) : String :=
  if c = 1 then base ++ ".pdf" else base ++ "_" ++ natRepr c ++ ".pdf"

/-- The relative path tried for counter `c`. -/
def pathOf (dir base : String) (c : Nat) : String :=
  dir ++ "/" ++ fileNameOf base c

/-- The `while file_path.exists()` loop of `LocalFileStore.save`, fuelled;
`save` passes fuel `fs.length + 1`, which `findFreeCounter_spec` proves
sufficient. -/
def findFreeCounter (fs : FS) (dir base : String) : Nat → Nat → Nat
  | 0, c => c
  | fuel + 1, c =>
    if fsExists fs (pathOf dir base c) then findFreeCounter fs dir base fuel (c + 1)
    else c

/-- `LocalFileStore.save`: compute the deterministic name, resolve
collisions by the numeric-suffix loop, write the bytes, and return the
relative path. -/
def save (fs : FS) (receipt_date : PyDate) (vendor : String) (amount : String)
    (pdf_data : Bytes) : String × FS :=
  let slug := slugify_vendor vendor
  let dir := natRepr receipt_date.year ++ "/" ++ pad2 receipt_date.month
  let base := isoDate receipt_date ++ "__" ++ slug ++ "__" ++ amount
  let c := findFreeCounter fs dir base (fs.length + 1) 1
  let rel := pathOf dir base c
  (rel, fsWrite fs rel pdf_data)

/-- `LocalFileStore.get_path` is the relative path interpreted under the
root; with paths kept relative it is the identity on its argument. -/
def get_path (relative_path : String) : String := relative_path

/-- `LocalFileStore.exists`. -/
def store_exists (fs : FS) (relative_path : String) : Bool := fsExists fs relative_path

/- Path analysis: splitting a relative path at `/` separators, used to
state that stored paths stay inside the root. -/
/-- Split a character list at every `/` (like `str.split("/")`). -/
def splitSlash : List Char → List (List Char)
  | [] => [[]]
  | c :: rest =>
    if c = '/' then [] :: splitSlash rest
    else
      match splitSlash rest with
      | [] => [[c]]
      | s :: ss => (c :: s) :: ss

/-- A relative path that cannot escape the directory it is resolved
against: nonempty, not absolute, and with no empty or `..` segment. -/
def insideRoot (p : String) : Prop :=
  p.data ≠ [] ∧ p.data.head? ≠ some '/' ∧
    ∀ seg ∈ splitSlash p.data, seg ≠ [] ∧ seg ≠ ['.', '.']

/- Document renderer (`receipt_index/renderer.py`).  The weasyprint call
`_html_to_pdf_bytes` is opaque I/O and is passed in as an explicit
`engine` parameter; every other step is embedded. -/
/-- The ASCII apostrophe. -/
def apostropheChar : Char := Char.ofNat 39

/-- `str.startswith`, on the character lists. -/
def strStartsWith (s pre : String) : Bool := pre.data.isPrefixOf s.data

/-- Python truthiness of an optional string: `None` and `""` are falsy. -/
def truthyStr (o : Option String) : Bool :=
  match o with
  | none => false
  | some s => !s.data.isEmpty

/-- The standard base64 alphabet. -/
def base64Alphabet : List Char :=
  "ABCDEFGHIJKLMNOPQRSTUVWXYZabcdefghijklmnopqrstuvwxyz0123456789+/".data

def base64Char (n : Nat) : Char := base64Alphabet.getD n '='

/-- `base64.b64encode(...)` over byte triples, `=`-padded. -/
def b64encodeChars : Bytes → List Char
  | [] => []
  | [a] => [base64Char (a / 4), base64Char (a % 4 * 16), '=', '=']
  | [a, b] =>
    [base64Char (a / 4), base64Char (a % 4 * 16 + b / 16), base64Char (b % 16 * 4), '=']
  | a :: b :: c :: rest =>
    base64Char (a / 4) :: base64Char (a % 4 * 16 + b / 16) ::
      base64Char (b % 16 * 4 + c / 64) :: base64Char (c % 64) :: b64encodeChars rest

def b64encode (bs : Bytes) : String := ⟨b64encodeChars bs⟩

/-- The `data:` URI built by `replace_cid` for a resolved attachment. -/
def dataURI (att : Attachment) : String :=
  "data:" ++ att.content_type ++ ";base64," ++ b64encode att.data

/-- `_find_pdf_attachment`: data of the first attachment whose content
type lower-cases to `application/pdf`. -/
def find_pdf_attachment (attachments : List Attachment) : Option Bytes :=
  (attachments.find? (fun a => pyLower a.content_type = "application/pdf")).map
    (fun a => a.data)

/-- A character the regex class `[^\s\"'>]` accepts (ASCII whitespace model
of `\s`). -/
def cidTokenChar (c : Char) : Bool :=
  !(pyWhitespaceChar c || c = '"' || c = apostropheChar || c = '>')

/-- The Python dict `attachment_map` built by `_embed_inline_images`
(`image/*` attachments keyed by filename, later entries overriding
earlier ones), as a lookup. -/
def lookupImage (attachments : List Attachment) (name : String) : Option Attachment :=
  ((attachments.filter (fun a => strStartsWith a.content_type "image/")).reverse).find?
    (fun a => a.filename = name)

/-- The scan of `re.sub(r"cid:([^\s\"'>]+)", replace_cid, html_content)`:
left to right, at each position a match requires the literal `cid:`
followed by at least one token character; the token is maximal; a
resolved token is replaced by its `data:` URI, an unresolved match is
reproduced verbatim (`match.group(0)`), and on no match the engine
advances one character.  Fuelled (one unit per step); callers pass the
string length, which `embedAux_fuel` proves sufficient. -/
def embedAux (lookup : String → Option Attachment) : Nat → List Char → List Char
  | 0, s => s
  | _ + 1, [] => []
  | fuel + 1, c :: rest =>
    if "cid:".data.isPrefixOf (c :: rest) then
      if (((c :: rest).drop 4).takeWhile cidTokenChar).isEmpty then
        c :: embedAux lookup fuel rest
      else
        match lookup ⟨((c :: rest).drop 4).takeWhile cidTokenChar⟩ with
        | some att => (dataURI att).data ++
            embedAux lookup fuel (((c :: rest).drop 4).dropWhile cidTokenChar)
        | none => "cid:".data ++ ((c :: rest).drop 4).takeWhile cidTokenChar ++
            embedAux lookup fuel (((c :: rest).drop 4).dropWhile cidTokenChar)
    else c :: embedAux lookup fuel rest

/-- `_embed_inline_images`. -/
def embed_inline_images (html_content : String) (attachments : List Attachment) : String :=
  if (attachments.filter (fun a => strStartsWith a.content_type "image/")).isEmpty then
    html_content
  else
    ⟨embedAux (lookupImage attachments) html_content.data.length html_content.data⟩

/-- `html.escape` of one character (`quote=True`, the default). -/
def htmlEscapeChar (c : Char) : List Char :=
  if c = '&' then "&amp;".data
  else if c = '<' then "&lt;".data
  else if c = '>' then "&gt;".data
  else if c = '"' then "&quot;".data
  else if c = apostropheChar then "&#x27;".data
  else [c]

/-- `html.escape`. -/
def htmlEscape (s : String) : String :=
  ⟨s.data.foldr (fun c acc => htmlEscapeChar c ++ acc) []⟩

/-- `PLAIN_TEXT_TEMPLATE.format(subject=..., sender=..., date=..., body=...)`:
the template with the four fields substituted and `{{`/`}}` rendered as
literal braces. -/
def plainTextTemplate (subject sender date body : String) : String :=
  "<!DOCTYPE html>\n<html>\n<head>\n<meta charset=\"utf-8\">\n<style>\n" ++
  "  body \x7b font-family: monospace; font-size: 12px; margin: 2em; \x7d\n" ++
  "  .header \x7b border-bottom: 1px solid #ccc; padding-bottom: 1em; margin-bottom: 1em; \x7d\n" ++
  "  .header p \x7b margin: 0.2em 0; \x7d\n" ++
  "  pre \x7b white-space: pre-wrap; word-wrap: break-word; \x7d\n" ++
  "</style>\n</head>\n<body>\n<div class=\"header\">\n" ++
  "  <p><strong>Subject:</strong> " ++ subject ++ "</p>\n" ++
  "  <p><strong>From:</strong> " ++ sender ++ "</p>\n" ++
  "  <p><strong>Date:</strong> " ++ date ++ "</p>\n" ++
  "</div>\n<pre>" ++ body ++ "</pre>\n</body>\n</html>\n"

/-- `_render_text_to_pdf`. -/
def render_text_to_pdf (engine : String → Bytes) (raw : RawReceipt) : Bytes :=
  engine (plainTextTemplate (htmlEscape raw.subject) (htmlEscape raw.sender)
    (htmlEscape (isoDateTime raw.date))
    (htmlEscape (match raw.text_body with
      | some t => if t.data.isEmpty then "(no body content)" else t
      | none => "(no body content)")))

/-- `_render_html_to_pdf`. -/
def render_html_to_pdf (engine : String → Bytes) (html_content : String)
    (attachments : List Attachment) : Bytes :=
  engine (embed_inline_images html_content attachments)

/-- `render_pdf`: the four-tier cascade. -/
def render_pdf (engine : String → Bytes) (raw : RawReceipt) : Bytes :=
  match find_pdf_attachment raw.attachments with
  | some pdf_data => pdf_data
  | none =>
    if truthyStr raw.html_body then
      render_html_to_pdf engine (raw.html_body.getD "") raw.attachments
    else if truthyStr raw.text_body then
      render_text_to_pdf engine raw
    else
      render_text_to_pdf engine raw

/-- Substring containment on character lists (`needle in hay`). -/
def containsSub (needle : List Char) : List Char → Bool
  | [] => needle.isEmpty
  | c :: rest => needle.isPrefixOf (c :: rest) || containsSub needle rest

/- Match structure of the `cid:` regex, for stating what the scan does. -/
/-- The regex `cid:([^\s\"'>]+)` matches at the head of `s`. -/
def matchHead (s : List Char) : Bool :=
  "cid:".data.isPrefixOf s && !((s.drop 4).takeWhile cidTokenChar).isEmpty

/-- The regex matches at position `i` of `s`. -/
def isMatchAt (s : List Char) (i : Nat) : Bool := matchHead (s.drop i)

/-- The match at position `i` of `s` has a token resolved by `lookup`. -/
def resolvedAt (lookup : String → Option Attachment) (s : List Char) (i : Nat) : Bool :=
  isMatchAt s i && (lookup ⟨((s.drop i).drop 4).takeWhile cidTokenChar⟩).isSome

/- The regex scan decomposes the markup into pieces: verbatim text and
maximal `cid:<token>` matches.  The decomposition depends only on the
markup, not on the attachment map, because `re.sub`'s match extents are
fixed by the pattern alone; the replacement callback only chooses what
each match becomes. -/

/-- One piece of the scan's decomposition of the markup: either verbatim
text or the token of a maximal `cid:<token>` match. -/
inductive CidPiece where
  | text (s : List Char)
  | ref (tok : List Char)
deriving DecidableEq, Repr

/-- The scan of `embedAux` as a decomposition into pieces, with the same
fuel discipline and the same branch structure. -/
def cidScan : Nat → List Char → List CidPiece
  | 0, s => [CidPiece.text s]
  | _ + 1, [] => []
  | fuel + 1, c :: rest =>
    if "cid:".data.isPrefixOf (c :: rest) then
      if (((c :: rest).drop 4).takeWhile cidTokenChar).isEmpty then
        CidPiece.text [c] :: cidScan fuel rest
      else
        CidPiece.ref (((c :: rest).drop 4).takeWhile cidTokenChar) ::
          cidScan fuel (((c :: rest).drop 4).dropWhile cidTokenChar)
    else CidPiece.text [c] :: cidScan fuel rest

/-- How `replace_cid` renders a piece: text passes through; a match whose
token is the filename of an image attachment becomes that attachment's
`data:` URI; an unresolved match is reproduced verbatim
(`match.group(0)`). -/
def renderPiece (lookup : String → Option Attachment) : CidPiece → List Char
  | CidPiece.text s => s
  | CidPiece.ref tok =>
    match lookup ⟨tok⟩ with
    | some att => (dataURI att).data
    | none => "cid:".data ++ tok

/-- The characters a piece stood for in the original markup. -/
def origPiece : CidPiece → List Char
  | CidPiece.text s => s
  | CidPiece.ref tok => "cid:".data ++ tok

/-- Rendering of a whole decomposition. -/
def renderPieces (lookup : String → Option Attachment) (ps : List CidPiece) : List Char :=
  ps.foldr (fun p acc => renderPiece lookup p ++ acc) []

/-- Reassembly of a whole decomposition into the original markup. -/
def origPieces (ps : List CidPiece) : List Char :=
  ps.foldr (fun p acc => origPiece p ++ acc) []

/- Prompt builder (`receipt_index/extraction.py`).  `_HTMLTagStripper`
subclasses `html.parser.HTMLParser` without passing
`convert_charrefs=False`; with the default `convert_charrefs=True` the
parser converts character references inside text and never calls the
`handle_entityref`/`handle_charref` overrides, so the stripper embedded
here decodes references.  The tokenizer is a subset model of
`HTMLParser`: `<...>` regions are dropped, character references with a
terminating `;` (the five predefined named ones, decimal `&#n;` and hex
`&#xn;`) are decoded, anything else is passed through; comments,
CDATA and script/style handling are not modelled (no claim reaches
them). -/
/-- The named references the model decodes (`html5` table subset). -/
def entityTable : List (List Char × Char) :=
  [("amp".data, '&'), ("lt".data, '<'), ("gt".data, '>'),
   ("quot".data, '"'), ("apos".data, apostropheChar)]

def isAsciiLetter (c : Char) : Bool :=
  (65 ≤ c.toNat && c.toNat ≤ 90) || (97 ≤ c.toNat && c.toNat ≤ 122)

def isAsciiDigit (c : Char) : Bool := 48 ≤ c.toNat && c.toNat ≤ 57

def hexDigitVal (c : Char) : Nat :=
  if 48 ≤ c.toNat && c.toNat ≤ 57 then c.toNat - 48
  else if 97 ≤ c.toNat && c.toNat ≤ 102 then c.toNat - 87
  else if 65 ≤ c.toNat && c.toNat ≤ 70 then c.toNat - 55
  else 0

def isHexDigit (c : Char) : Bool :=
  (48 ≤ c.toNat && c.toNat ≤ 57) || (97 ≤ c.toNat && c.toNat ≤ 102) ||
    (65 ≤ c.toNat && c.toNat ≤ 70)

/-- Parse one character reference after a `&`, returning the decoded
character and the remaining input. -/
def parseCharref (s : List Char) : Option (Char × List Char) :=
  match s with
  | '#' :: rest =>
    match rest with
    | 'x' :: hs | 'X' :: hs =>
      match hs.takeWhile isHexDigit with
      | [] => none
      | ds =>
        match hs.dropWhile isHexDigit with
        | ';' :: rest' => some (Char.ofNat (ds.foldl (fun a c => 16 * a + hexDigitVal c) 0), rest')
        | _ => none
    | _ =>
      match rest.takeWhile isAsciiDigit with
      | [] => none
      | ds =>
        match rest.dropWhile isAsciiDigit with
        | ';' :: rest' => some (Char.ofNat (digitsVal ds), rest')
        | _ => none
  | _ =>
    match s.takeWhile (fun c => isAsciiLetter c || isAsciiDigit c) with
    | [] => none
    | name =>
      match s.dropWhile (fun c => isAsciiLetter c || isAsciiDigit c) with
      | ';' :: rest' =>
        match entityTable.find? (fun e => e.1 = name) with
        | some e => some (e.2, rest')
        | none => none
      | _ => none

/-- The tag-stripping scan: text is kept (with character references
decoded, per `convert_charrefs=True`), `<...>` regions are dropped.
Fuelled; callers pass the input length. -/
def stripAux : Nat → Bool → List Char → List Char
  | 0, _, _ => []
  | _ + 1, _, [] => []
  | fuel + 1, true, c :: rest =>
    if c = '>' then stripAux fuel false rest else stripAux fuel true rest
  | fuel + 1, false, c :: rest =>
    if c = '<' then stripAux fuel true rest
    else if c = '&' then
      match parseCharref rest with
      | some (ch, rest') => ch :: stripAux fuel false rest'
      | none => c :: stripAux fuel false rest
    else c :: stripAux fuel false rest

/-- `_strip_html_tags`. -/
def strip_html_tags (html : String) : String :=
  ⟨stripAux html.data.length false html.data⟩

/-- `_build_prompt`: the fixed header lines followed by the body section,
joined by newlines. -/
def build_prompt (raw : RawReceipt) : String :=
  "Subject: " ++ raw.subject ++ "\n" ++
  "From: " ++ raw.sender ++ "\n" ++
  "Date: " ++ isoDateTime raw.date ++ "\n" ++
  "\n" ++
  "--- Email Body ---" ++ "\n" ++
  (if truthyStr raw.text_body then raw.text_body.getD ""
   else if truthyStr raw.html_body then strip_html_tags (raw.html_body.getD "")
   else "(no body content)")

/- `ReceiptMetadata` (models.py): a pydantic model whose declared field
constraints are `vendor: min_length=1`, `amount: Decimal, gt=0`,
`currency: default "USD", pattern ^[A-Z]{3}$`, `confidence: float,
ge=0.0, le=1.0`.  Decimal and float values are modelled as rationals;
construction is a total function returning `none` where pydantic raises
`ValidationError`. -/
structure ReceiptMetadata where
  vendor : String
  amount : Rat
  currency : String
  date : PyDate
  description : Option String
  confidence : Rat
deriving DecidableEq, Repr

/-- The currency pattern `^[A-Z]{3}$`. -/
def validCurrency (c : String) : Bool :=
  c.data.length = 3 && c.data.all (fun ch => 65 ≤ ch.toNat && ch.toNat ≤ 90)

/-- Validated construction of `ReceiptMetadata`: each declared constraint
is checked on the given value; `currency` defaults to `"USD"` only when
the field is absent (pydantic does not validate defaults). -/
def mkReceiptMetadata (vendor : String) (amount : Rat) (currency : Option String)
    (date : PyDate) (description : Option String) (confidence : Rat) :
    Option ReceiptMetadata :=
  if vendor = "" then none
  else if amount ≤ 0 then none
  else if (match currency with | some c => !validCurrency c | none => false) then none
  else if confidence < 0 ∨ 1 < confidence then none
  else some ⟨vendor, amount, currency.getD "USD", date, description, confidence⟩

/- `hashlib.sha256(...).hexdigest()`, implemented from FIPS 180-4 over
natural numbers reduced mod 2^32. -/
/-- Truncation to a 32-bit word. -/
def w32 (n : Nat) : Nat := n % 4294967296

/-- Right rotation of a 32-bit word. -/
def rotr32 (x n : Nat) : Nat := w32 ((x >>> n) ||| (x <<< (32 - n)))

/-- The SHA-256 round constants. -/
def sha256K : List Nat :=
  [1116352408, 1899447441, 3049323471, 3921009573, 961987163,
   1508970993, 2453635748, 2870763221, 3624381080, 310598401,
   607225278, 1426881987, 1925078388, 2162078206, 2614888103,
   3248222580, 3835390401, 4022224774, 264347078, 604807628,
   770255983, 1249150122, 1555081692, 1996064986, 2554220882,
   2821834349, 2952996808, 3210313671, 3336571891, 3584528711,
   113926993, 338241895, 666307205, 773529912, 1294757372,
   1396182291, 1695183700, 1986661051, 2177026350, 2456956037,
   2730485921, 2820302411, 3259730800, 3345764771, 3516065817,
   3600352804, 4094571909, 275423344, 430227734, 506948616,
   659060556, 883997877, 958139571, 1322822218, 1537002063,
   1747873779, 1955562222, 2024104815, 2227730452, 2361852424,
   2428436474, 2756734187, 3204031479, 3329325298]

/-- The SHA-256 initial hash value. -/
def sha256H0 : List Nat :=
  [1779033703, 3144134277, 1013904242, 2773480762,
   1359893119, 2600822924, 528734635, 1541459225]

/-- The 8-byte big-endian encoding of `n`. -/
def beBytes8 (n : Nat) : Bytes :=
  (List.range 8).map (fun i => (n >>> (8 * (7 - i))) % 256)

/-- Merkle–Damgård padding to a multiple of 64 bytes. -/
def sha256Pad (msg : Bytes) : Bytes :=
  msg ++ [0x80] ++ List.replicate ((64 - (msg.length + 9) % 64) % 64) 0 ++
    beBytes8 (8 * msg.length)

/-- The 16 big-endian 32-bit words of one 64-byte block. -/
def blockWords (block : Bytes) : List Nat :=
  (List.range 16).map (fun j =>
    block.getD (4 * j) 0 * 16777216 + block.getD (4 * j + 1) 0 * 65536 +
      block.getD (4 * j + 2) 0 * 256 + block.getD (4 * j + 3) 0)

/-- Extend 16 words to the 64-word message schedule. -/
def sha256Schedule (ws : List Nat) : List Nat :=
  (List.range 48).foldl (fun w _ =>
    let s0 := rotr32 (w.getD (w.length - 15) 0) 7 ^^^ rotr32 (w.getD (w.length - 15) 0) 18 ^^^
      (w.getD (w.length - 15) 0 >>> 3)
    let s1 := rotr32 (w.getD (w.length - 2) 0) 17 ^^^ rotr32 (w.getD (w.length - 2) 0) 19 ^^^
      (w.getD (w.length - 2) 0 >>> 10)
    w ++ [w32 (w.getD (w.length - 16) 0 + s0 + w.getD (w.length - 7) 0 + s1)]) ws

/-- One SHA-256 compression step over the state `[a,b,c,d,e,f,g,h]`. -/
def sha256Round (st : List Nat) (kw : Nat × Nat) : List Nat :=
  match st with
  | [a, b, c, d, e, f, g, h] =>
    let S1 := rotr32 e 6 ^^^ rotr32 e 11 ^^^ rotr32 e 25
    let ch := (e &&& f) ^^^ ((e ^^^ 4294967295) &&& g)
    let temp1 := w32 (h + S1 + ch + kw.1 + kw.2)
    let S0 := rotr32 a 2 ^^^ rotr32 a 13 ^^^ rotr32 a 22
    let maj := (a &&& b) ^^^ (a &&& c) ^^^ (b &&& c)
    let temp2 := w32 (S0 + maj)
    [w32 (temp1 + temp2), a, b, c, w32 (d + temp1), e, f, g]
  | other => other

/-- Compression of one 64-byte block into the running hash. -/
def sha256Compress (h : List Nat) (block : Bytes) : List Nat :=
  let final := ((sha256K.zip (sha256Schedule (blockWords block))).foldl sha256Round h)
  List.zipWith (fun x y => w32 (x + y)) h final

/-- The eight hash words of a byte message. -/
def sha256Words (msg : Bytes) : List Nat :=
  (List.range ((sha256Pad msg).length / 64)).foldl
    (fun h i => sha256Compress h (((sha256Pad msg).drop (64 * i)).take 64)) sha256H0

/-- Lowercase hex digit. -/
def hexChar (n : Nat) : Char :=
  match n with
  | 0 => '0' | 1 => '1' | 2 => '2' | 3 => '3' | 4 => '4' | 5 => '5' | 6 => '6'
  | 7 => '7' | 8 => '8' | 9 => '9' | 10 => 'a' | 11 => 'b' | 12 => 'c' | 13 => 'd'
  | 14 => 'e' | _ => 'f'

/-- Eight hex digits of a 32-bit word. -/
def wordHex (w : Nat) : List Char :=
  (List.range 8).map (fun i => hexChar ((w >>> (4 * (7 - i))) % 16))

/-- `hashlib.sha256(msg).hexdigest()`. -/
def sha256hex (msg : Bytes) : String :=
  ⟨(sha256Words msg).foldr (fun w acc => wordHex w ++ acc) []⟩

/-- UTF-8 encoding of one character (`str.encode()`). -/
def utf8EncodeCharM (c : Char) : Bytes :=
  let n := c.toNat
  if n < 128 then [n]
  else if n < 2048 then [192 ||| (n >>> 6), 128 ||| (n &&& 63)]
  else if n < 65536 then
    [224 ||| (n >>> 12), 128 ||| ((n >>> 6) &&& 63), 128 ||| (n &&& 63)]
  else
    [240 ||| (n >>> 18), 128 ||| ((n >>> 12) &&& 63), 128 ||| ((n >>> 6) &&& 63),
     128 ||| (n &&& 63)]

/-- `str.encode()`: UTF-8 bytes of a string. -/
def utf8Bytes (s : String) : Bytes :=
  s.data.foldr (fun c acc => utf8EncodeCharM c ++ acc) []

/- IMAP source adapter (`receipt_index/adapters/imap.py`).  A fetched and
MIME-parsed message is abstracted as `EmailMsg`: the raw headers the
adapter reads through `msg.get(...)` (absent headers are `none`), plus
the outcome of `_extract_body_and_attachments` (the MIME walk itself is
summarised by its three results; no claim depends on the walk).  The
stdlib collaborators of `_parse_message` are a parameter record
`MailEnv`: `parsedate` models `email.utils.parsedate_to_datetime`, with
`none` standing for the exception it raises on a malformed date;
`decodeHeader` models the RFC 2047 `decode_header` pipeline of
`_decode_header_value`; `now` is `datetime.now(tz=UTC)`, the ingestion
time. -/
structure EmailMsg where
  messageId : Option String
  subjectH : Option String
  fromH : Option String
  dateH : Option String
  htmlBody : Option String := none
  textBody : Option String := none
  attachments : List Attachment := []
deriving DecidableEq, Repr

structure MailEnv where
  parsedate : String → Option PyDateTime
  decodeHeader : String → String
  now : PyDateTime

/-- The fallback fingerprint key `f"{subject}|{date}|{sender}"` over the
raw headers (`msg.get(..., "")`). -/
def message_id_key (msg : EmailMsg) : String :=
  msg.subjectH.getD "" ++ "|" ++ msg.dateH.getD "" ++ "|" ++ msg.fromH.getD ""

/-- `ImapAdapter._get_message_id`. -/
def get_message_id (msg : EmailMsg) : String :=
  if truthyStr msg.messageId then pyStrip (msg.messageId.getD "")
  else sha256hex (utf8Bytes (message_id_key msg))

/-- `ImapAdapter._decode_header_value`: empty or absent values decode to
`""`; otherwise the RFC 2047 pipeline runs. -/
def decode_header_value (env : MailEnv) (v : Option String) : String :=
  match v with
  | none => ""
  | some s => if s = "" then "" else env.decodeHeader s

/-- `ImapAdapter._parse_message`.  `Except.error ()` is the exception
path: with a present, non-empty, unparseable date header
`parsedate_to_datetime` raises and the error propagates out of
`_parse_message`; a missing or empty date header yields `email_date =
None` and `email_date or datetime.now(tz=UTC)` substitutes the
ingestion time. -/
def parse_message (env : MailEnv) (msg : EmailMsg) (source_id : String) :
    Except Unit RawReceipt :=
  match msg.dateH with
  | some ds =>
    if ds = "" then
      .ok ⟨source_id, decode_header_value env msg.subjectH,
        decode_header_value env msg.fromH, env.now, msg.htmlBody, msg.textBody,
        msg.attachments⟩
    else
      match env.parsedate ds with
      | some d =>
        .ok ⟨source_id, decode_header_value env msg.subjectH,
          decode_header_value env msg.fromH, d, msg.htmlBody, msg.textBody,
          msg.attachments⟩
      | none => .error ()
  | none =>
    .ok ⟨source_id, decode_header_value env msg.subjectH,
      decode_header_value env msg.fromH, env.now, msg.htmlBody, msg.textBody,
      msg.attachments⟩

/-- `ImapAdapter.fetch_unprocessed` over one mailbox scan.  The mailbox is
the listing-ordered sequence of fetch results; `none` is a fetch that
returned no data (silently skipped).  For each message the identity is
computed and checked against `processed_ids` before `_parse_message`
runs; parse failures are logged and skipped. -/
def fetch_unprocessed (env : MailEnv) (mailbox : List (Option EmailMsg))
    (processed_ids : List String) : List RawReceipt :=
  match mailbox with
  | [] => []
  | none :: rest => fetch_unprocessed env rest processed_ids
  | some msg :: rest =>
    if processed_ids.contains (get_message_id msg) then
      fetch_unprocessed env rest processed_ids
    else
      match parse_message env msg (get_message_id msg) with
      | .ok r => r :: fetch_unprocessed env rest processed_ids
      | .error _ => fetch_unprocessed env rest processed_ids

/- Concrete environment and message for the date-parsing counterexamples.
`envFix.parsedate` models `email.utils.parsedate_to_datetime` on the
strings this file applies it to: it parses the one well-formed RFC 2822
date used below and raises (`none`) on `"not a date"`, as the real
function does; `decodeHeader` is the identity, as `decode_header` is on
plain ASCII headers. -/
def envFix : MailEnv :=
  ⟨fun s => if s = "Mon, 15 Jun 2025 10:30:00 +0000"
      then some ⟨"2025-06-15T10:30:00+00:00"⟩ else none,
   fun s => s, ⟨"2026-10-12T00:00:00+00:00"⟩⟩

/-- A fetched message whose `Date` header is present but unparseable. -/
def badDateMsg : EmailMsg :=
  ⟨some "<bad@example.com>", some "Receipt", some "shop@example.com",
    some "not a date", none, some "body", []⟩

/-- A fetched message with a well-formed date, for the adapter witnesses. -/
def goodMsg : EmailMsg :=
  ⟨some "<m@x>", some "S", some "F", some "Mon, 15 Jun 2025 10:30:00 +0000",
    none, some "b", []⟩

/-- The receipt `goodMsg` normalizes to under `envFix`. -/
def goodReceipt : RawReceipt :=
  ⟨"<m@x>", "S", "F", ⟨"2025-06-15T10:30:00+00:00"⟩, none, some "b", []⟩

theorem natReprCharsAux_fuel (fuel₁ fuel₂ n : Nat) (h₁ : n < fuel₁) (h₂ : n < fuel₂) :
    natReprCharsAux fuel₁ n = natReprCharsAux fuel₂ n := by
  induction fuel₁ generalizing fuel₂ n with
  | zero => omega
  | succ f ih =>
    cases fuel₂ with
    | zero => omega
    | succ g =>
      simp only [natReprCharsAux]
      by_cases hn : n < 10
      · simp [hn]
      · simp only [hn, if_false]
        have hd : n / 10 < n := Nat.div_lt_self (by omega) (by omega)
        rw [ih g (n / 10) (by omega) (by omega)]

theorem digitVal_digitChar (k : Nat) (hk : k < 10) : digitVal (digitChar k) = k := by
  interval_cases k <;> rfl

theorem digitChar_mem (k : Nat) :
    digitChar k ∈ ['0','1','2','3','4','5','6','7','8','9'] := by
  unfold digitChar
  split <;> simp

theorem digitsVal_append_one (l : List Char) (c : Char) :
    digitsVal (l ++ [c]) = 10 * digitsVal l + digitVal c := by
  simp [digitsVal]

theorem digitsVal_natReprChars (n : Nat) : digitsVal (natReprChars n) = n := by
  induction n using Nat.strong_induction_on with
  | _ n ih =>
    unfold natReprChars
    rw [show natReprCharsAux (n + 1) n = natReprCharsAux (n + 1) n from rfl]
    cases hfuel : n + 1 with
    | zero => omega
    | succ f =>
      simp only [natReprCharsAux]
      by_cases hn : n < 10
      · simp [hn, digitsVal, digitVal_digitChar n hn]
      · simp only [hn, if_false]
        have hd : n / 10 < n := Nat.div_lt_self (by omega) (by omega)
        have hf : n / 10 < f := by omega
        rw [natReprCharsAux_fuel f (n / 10 + 1) (n / 10) hf (by omega)]
        have := ih (n / 10) hd
        unfold natReprChars at this
        rw [digitsVal_append_one, this, digitVal_digitChar (n % 10) (Nat.mod_lt n (by omega))]
        omega

theorem natReprChars_injective {m n : Nat} (h : natReprChars m = natReprChars n) : m = n := by
  have := congrArg digitsVal h
  rwa [digitsVal_natReprChars, digitsVal_natReprChars] at this

theorem natReprChars_digits (n : Nat) :
    ∀ c ∈ natReprChars n, c ∈ ['0','1','2','3','4','5','6','7','8','9'] := by
  induction n using Nat.strong_induction_on with
  | _ n ih =>
    intro c hc
    unfold natReprChars at hc
    cases hfuel : n + 1 with
    | zero => omega
    | succ f =>
      rw [hfuel] at hc
      simp only [natReprCharsAux] at hc
      by_cases hn : n < 10
      · simp [hn] at hc
        subst hc
        exact digitChar_mem n
      · simp only [hn, if_false, List.mem_append, List.mem_singleton] at hc
        rcases hc with hc | hc
        · have hd : n / 10 < n := Nat.div_lt_self (by omega) (by omega)
          rw [natReprCharsAux_fuel f (n / 10 + 1) (n / 10) (by omega) (by omega)] at hc
          exact ih (n / 10) hd c hc
        · subst hc
          exact digitChar_mem (n % 10)

theorem slugReplaceAux_chars (l : List Char) :
    ∀ flag, ∀ c ∈ slugReplaceAux flag l, slugAllowedChar c = true ∨ c = '-' := by
  induction l with
  | nil => intro flag c hc; cases flag <;> simp [slugReplaceAux] at hc
  | cons a rest ih =>
    intro flag c hc
    simp only [slugReplaceAux] at hc
    by_cases ha : slugAllowedChar a
    · simp only [ha, if_true, List.mem_cons] at hc
      rcases hc with hc | hc
      · exact Or.inl (hc ▸ ha)
      · exact ih false c hc
    · simp only [ha, if_false] at hc
      cases flag with
      | true => exact ih true c (by simpa using hc)
      | false =>
        simp at hc
        rcases hc with hc | hc
        · exact Or.inr hc
        · exact ih true c hc

theorem stripDashes_subset (l : List Char) : ∀ c ∈ stripDashes l, c ∈ l := by
  intro c hc
  unfold stripDashes at hc
  rw [List.mem_reverse] at hc
  have h1 := (List.dropWhile_sublist (l := (l.dropWhile (fun c => c = '-')).reverse)
    (p := fun c => c = '-')).subset hc
  rw [List.mem_reverse] at h1
  exact (List.dropWhile_sublist (l := l) (p := fun c => c = '-')).subset h1

theorem slugifyChars_chars (s : List Char) :
    ∀ c ∈ slugifyChars s, slugAllowedChar c = true ∨ c = '-' := by
  intro c hc
  unfold slugifyChars at hc
  have h1 := stripDashes_subset _ c hc
  have h2 := List.take_subset 50 _ h1
  have h3 := stripDashes_subset _ c h2
  exact slugReplaceAux_chars _ false c h3

theorem natReprChars_ne_nil (n : Nat) : natReprChars n ≠ [] := by
  unfold natReprChars natReprCharsAux
  by_cases hn : n < 10 <;> simp [hn]

theorem pathOf_inj (dir base : String) {c c' : Nat} (_hc : 1 ≤ c) (_hc' : 1 ≤ c')
    (h : pathOf dir base c = pathOf dir base c') : c = c' := by
  have hlen : ∀ n : Nat, 1 ≤ (natRepr n).data.length := by
    intro n
    cases hnil : (natRepr n).data with
    | nil => exact absurd hnil (by unfold natRepr; simpa using natReprChars_ne_nil n)
    | cons a l => simp
  unfold pathOf fileNameOf at h
  have hd := congrArg String.data h
  by_cases h1 : c = 1 <;> by_cases h2 : c' = 1
  · omega
  · simp only [h1, if_true, h2, if_false, String.data_append, List.append_assoc] at hd
    have hd' := List.append_cancel_left (List.append_cancel_left hd)
    have := congrArg List.length hd'
    simp only [List.length_append] at this
    have := hlen c'
    omega
  · simp only [h1, if_false, h2, if_true, String.data_append, List.append_assoc] at hd
    have hd' := List.append_cancel_left (List.append_cancel_left hd)
    have := congrArg List.length hd'
    simp only [List.length_append] at this
    have := hlen c
    omega
  · simp only [h1, h2, if_false, String.data_append, List.append_assoc] at hd
    have hd' := List.append_cancel_left
      (List.append_cancel_left (List.append_cancel_left hd))
    have h5 : (natRepr c).data = (natRepr c').data :=
      List.append_cancel_right (List.append_cancel_left hd')
    exact natReprChars_injective (by simpa [natRepr] using h5)

theorem findFreeCounter_ge (fs : FS) (dir base : String) (fuel c : Nat) :
    c ≤ findFreeCounter fs dir base fuel c := by
  induction fuel generalizing c with
  | zero => simp [findFreeCounter]
  | succ f ih =>
    simp only [findFreeCounter]
    by_cases h : fsExists fs (pathOf dir base c) = true
    · simp only [h, if_true]
      exact le_trans (by omega) (ih (c + 1))
    · simp [h]

theorem findFreeCounter_free (fs : FS) (dir base : String) (fuel c : Nat)
    (h : ∃ i, i < fuel ∧ fsExists fs (pathOf dir base (c + i)) = false) :
    fsExists fs (pathOf dir base (findFreeCounter fs dir base fuel c)) = false := by
  induction fuel generalizing c with
  | zero => obtain ⟨i, hi, _⟩ := h; omega
  | succ f ih =>
    obtain ⟨i, hi, hfree⟩ := h
    simp only [findFreeCounter]
    by_cases hex : fsExists fs (pathOf dir base c) = true
    · simp only [hex, if_true]
      apply ih
      have hi0 : i ≠ 0 := by
        rintro rfl
        rw [show c + 0 = c by omega] at hfree
        rw [hex] at hfree
        exact Bool.noConfusion hfree
      refine ⟨i - 1, by omega, ?_⟩
      have harg : c + 1 + (i - 1) = c + i := by omega
      rw [harg]
      exact hfree
    · simp only [hex, if_false]
      simp only [Bool.not_eq_true] at hex
      exact hex

theorem findFreeCounter_min (fs : FS) (dir base : String) (fuel c : Nat) :
    ∀ k, c ≤ k → k < findFreeCounter fs dir base fuel c →
      fsExists fs (pathOf dir base k) = true := by
  induction fuel generalizing c with
  | zero =>
    intro k hk1 hk2
    simp [findFreeCounter] at hk2
    omega
  | succ f ih =>
    intro k hk1 hk2
    simp only [findFreeCounter] at hk2
    by_cases hex : fsExists fs (pathOf dir base c) = true
    · simp only [hex, if_true] at hk2
      by_cases hkc : k = c
      · subst hkc; exact hex
      · exact ih (c + 1) k (by omega) hk2
    · simp only [hex] at hk2
      simp at hk2
      omega

theorem fsExists_mem_keys {fs : FS} {p : String} (h : fsExists fs p = true) :
    p ∈ fs.map Prod.fst := by
  unfold fsExists fsRead at h
  cases hf : fs.find? (fun e => e.1 = p) with
  | none => rw [hf] at h; simp at h
  | some e =>
    have hmem := List.mem_of_find?_eq_some hf
    have hp := List.find?_some hf
    simp at hp
    exact hp ▸ List.mem_map_of_mem Prod.fst hmem

theorem exists_free_counter (fs : FS) (dir base : String) :
    ∃ i, i < fs.length + 1 ∧ fsExists fs (pathOf dir base (1 + i)) = false := by
  by_contra hcon
  push_neg at hcon
  have hall : ∀ i, i < fs.length + 1 → fsExists fs (pathOf dir base (1 + i)) = true := by
    intro i hi
    have := hcon i hi
    cases hbe : fsExists fs (pathOf dir base (1 + i)) with
    | false => exact absurd hbe this
    | true => rfl
  have hnodup : ((List.range (fs.length + 1)).map (fun i => pathOf dir base (1 + i))).Nodup := by
    apply List.Nodup.map_on ?_ (List.nodup_range _)
    intro x _ y _ hxy
    have := @pathOf_inj dir base (1 + x) (1 + y) (by omega) (by omega) hxy
    omega
  have hsub : ((List.range (fs.length + 1)).map (fun i => pathOf dir base (1 + i)))
      ⊆ fs.map Prod.fst := by
    intro p hp
    simp only [List.mem_map, List.mem_range] at hp
    obtain ⟨i, hi, rfl⟩ := hp
    exact fsExists_mem_keys (hall i hi)
  have hle := (hnodup.subperm hsub).length_le
  simp at hle

theorem save_path_free (fs : FS) (d : PyDate) (v a : String) (data : Bytes) :
    fsExists fs (save fs d v a data).1 = false := by
  unfold save
  exact findFreeCounter_free fs _ _ (fs.length + 1) 1 (exists_free_counter fs _ _)

theorem fsRead_fsWrite_ne (fs : FS) (q : String) (d : Bytes) (p : String) (h : q ≠ p) :
    fsRead (fsWrite fs q d) p = fsRead fs p := by
  simp [fsRead, fsWrite, List.find?, h]

theorem save_preserves_reads (fs : FS) (d : PyDate) (v a : String) (data : Bytes)
    (p : String) (bytes : Bytes) (hp : fsRead fs p = some bytes) :
    fsRead (save fs d v a data).2 p = some bytes := by
  have hfree := save_path_free fs d v a data
  have hne : (save fs d v a data).1 ≠ p := by
    intro heq
    rw [heq] at hfree
    unfold fsExists at hfree
    rw [hp] at hfree
    simp at hfree
  have h2 : (save fs d v a data).2 = fsWrite fs (save fs d v a data).1 data := rfl
  rw [h2, fsRead_fsWrite_ne fs _ data p hne]
  exact hp

theorem splitSlash_no_slash (l : List Char) (h : '/' ∉ l) : splitSlash l = [l] := by
  induction l with
  | nil => rfl
  | cons c rest ih =>
    have hc : ¬(c = '/') := fun he => h (he ▸ List.mem_cons_self c rest)
    have hrest : '/' ∉ rest := fun hm => h (List.mem_cons_of_mem c hm)
    simp only [splitSlash, hc, if_false, ih hrest]

theorem splitSlash_append (xs rest : List Char) (h : '/' ∉ xs) :
    splitSlash (xs ++ '/' :: rest) = xs :: splitSlash rest := by
  induction xs with
  | nil => simp [splitSlash]
  | cons c xs ih =>
    have hc : ¬(c = '/') := fun he => h (he ▸ List.mem_cons_self c xs)
    have hxs : '/' ∉ xs := fun hm => h (List.mem_cons_of_mem c hm)
    have hstep : splitSlash (c :: (xs ++ '/' :: rest)) =
        match splitSlash (xs ++ '/' :: rest) with
        | [] => [[c]]
        | s :: ss => (c :: s) :: ss := by
      simp [splitSlash, hc]
    rw [List.cons_append, hstep, ih hxs]

theorem natRepr_no_slash (n : Nat) : '/' ∉ (natRepr n).data := by
  intro h
  have hd : (natRepr n).data = natReprChars n := rfl
  rw [hd] at h
  exact absurd (natReprChars_digits n _ h) (by decide)

theorem pad2_no_slash (n : Nat) : '/' ∉ (pad2 n).data := by
  unfold pad2
  intro hmem
  have hnr := natRepr_no_slash n
  by_cases h : n < 10
  · simp [h, String.data_append] at hmem
    exact hnr hmem
  · simp [h] at hmem
    exact hnr hmem

theorem pad4_no_slash (n : Nat) : '/' ∉ (pad4 n).data := by
  unfold pad4
  intro hmem
  have hnr := natRepr_no_slash n
  by_cases h1 : n < 10
  · simp [h1, String.data_append] at hmem
    exact hnr hmem
  · by_cases h2 : n < 100
    · simp [h1, h2, String.data_append] at hmem
      exact hnr hmem
    · by_cases h3 : n < 1000
      · simp [h1, h2, h3, String.data_append] at hmem
        exact hnr hmem
      · simp [h1, h2, h3] at hmem
        exact hnr hmem

theorem isoDate_no_slash (d : PyDate) : '/' ∉ (isoDate d).data := by
  unfold isoDate
  intro hmem
  simp only [String.data_append, List.mem_append] at hmem
  rcases hmem with ((((h | h) | h) | h) | h)
  · exact pad4_no_slash d.year h
  · simp at h
  · exact pad2_no_slash d.month h
  · simp at h
  · exact pad2_no_slash d.day h

theorem slug_no_slash (vendor : String) : '/' ∉ (slugify_vendor vendor).data := by
  intro hmem
  have hd : (slugify_vendor vendor).data = slugifyChars vendor.data := rfl
  rw [hd] at hmem
  rcases slugifyChars_chars vendor.data _ hmem with h | h
  · exact absurd h (by decide)
  · exact absurd h (by decide)

theorem base_no_slash (d : PyDate) (vendor amount : String) (ham : '/' ∉ amount.data) :
    '/' ∉ (isoDate d ++ "__" ++ slugify_vendor vendor ++ "__" ++ amount).data := by
  intro hmem
  simp only [String.data_append, List.mem_append] at hmem
  rcases hmem with ((((h | h) | h) | h) | h)
  · exact isoDate_no_slash d h
  · simp at h
  · exact slug_no_slash vendor h
  · simp at h
  · exact ham h

theorem fileNameOf_no_slash (base : String) (c : Nat) (hb : '/' ∉ base.data) :
    '/' ∉ (fileNameOf base c).data := by
  unfold fileNameOf
  intro hmem
  by_cases h1 : c = 1
  · simp only [h1, if_true, String.data_append, List.mem_append] at hmem
    rcases hmem with h | h
    · exact hb h
    · simp at h
  · simp only [h1, if_false, String.data_append, List.mem_append] at hmem
    rcases hmem with ((h | h) | h) | h
    · exact hb h
    · simp at h
    · exact natRepr_no_slash c h
    · simp at h

theorem fileNameOf_len (base : String) (c : Nat) : 4 ≤ (fileNameOf base c).data.length := by
  unfold fileNameOf
  by_cases h1 : c = 1 <;> simp [h1, String.data_append] <;> omega

theorem save_path_structure (fs : FS) (d : PyDate) (vendor amount : String)
    (data : Bytes) (ham : '/' ∉ amount.data) :
    ∃ fname : List Char,
      (save fs d vendor amount data).1.data =
        (natRepr d.year).data ++ '/' :: ((pad2 d.month).data ++ '/' :: fname) ∧
      '/' ∉ fname ∧ 4 ≤ fname.length ∧
      splitSlash (save fs d vendor amount data).1.data =
        [(natRepr d.year).data, (pad2 d.month).data, fname] := by
  have hrel : (save fs d vendor amount data).1 =
      pathOf (natRepr d.year ++ "/" ++ pad2 d.month)
        (isoDate d ++ "__" ++ slugify_vendor vendor ++ "__" ++ amount)
        (findFreeCounter fs (natRepr d.year ++ "/" ++ pad2 d.month)
          (isoDate d ++ "__" ++ slugify_vendor vendor ++ "__" ++ amount)
          (fs.length + 1) 1) := rfl
  refine ⟨(fileNameOf (isoDate d ++ "__" ++ slugify_vendor vendor ++ "__" ++ amount)
    (findFreeCounter fs (natRepr d.year ++ "/" ++ pad2 d.month)
      (isoDate d ++ "__" ++ slugify_vendor vendor ++ "__" ++ amount)
      (fs.length + 1) 1)).data, ?_, ?_, ?_, ?_⟩
  · rw [hrel]
    unfold pathOf
    simp [String.data_append, List.append_assoc]
  · exact fileNameOf_no_slash _ _ (base_no_slash d vendor amount ham)
  · exact fileNameOf_len _ _
  · rw [hrel]
    unfold pathOf
    have hdata : (natRepr d.year ++ "/" ++ pad2 d.month ++ "/" ++
        fileNameOf (isoDate d ++ "__" ++ slugify_vendor vendor ++ "__" ++ amount)
          (findFreeCounter fs (natRepr d.year ++ "/" ++ pad2 d.month)
            (isoDate d ++ "__" ++ slugify_vendor vendor ++ "__" ++ amount)
            (fs.length + 1) 1)).data =
        (natRepr d.year).data ++ '/' :: ((pad2 d.month).data ++ '/' ::
          (fileNameOf (isoDate d ++ "__" ++ slugify_vendor vendor ++ "__" ++ amount)
            (findFreeCounter fs (natRepr d.year ++ "/" ++ pad2 d.month)
              (isoDate d ++ "__" ++ slugify_vendor vendor ++ "__" ++ amount)
              (fs.length + 1) 1)).data) := by
      simp [String.data_append, List.append_assoc]
    rw [hdata, splitSlash_append _ _ (natRepr_no_slash d.year),
      splitSlash_append _ _ (pad2_no_slash d.month),
      splitSlash_no_slash _ (fileNameOf_no_slash _ _ (base_no_slash d vendor amount ham))]

theorem digits_ne_slash : ∀ c ∈ (['0','1','2','3','4','5','6','7','8','9'] : List Char),
    c ≠ '/' := by decide

theorem digits_ne_dot : ∀ c ∈ (['0','1','2','3','4','5','6','7','8','9'] : List Char),
    c ≠ '.' := by decide

theorem pad2_digits (n : Nat) :
    ∀ c ∈ (pad2 n).data, c ∈ ['0','1','2','3','4','5','6','7','8','9'] := by
  unfold pad2
  intro c hc
  by_cases h : n < 10
  · simp only [h, if_true, String.data_append] at hc
    rcases List.mem_append.mp hc with h1 | h1
    · simp at h1
      subst h1
      decide
    · exact natReprChars_digits n c h1
  · simp only [h, if_false] at hc
    exact natReprChars_digits n c hc

theorem pad2_ne_nil (n : Nat) : (pad2 n).data ≠ [] := by
  unfold pad2
  by_cases h : n < 10
  · simp [h, String.data_append]
  · simp only [h, if_false]
    exact natReprChars_ne_nil n

/-- C2: the first save of (2025-06-15, "Amazon", 42.99) returns exactly
`2025/06/2025-06-15__amazon__42.99.pdf`; an identical second save
returns `2025/06/2025-06-15__amazon__42.99_2.pdf`; in general the
returned path is the base name for counter 1 or carries a numeric
suffix `_k` (k ≥ 2) inserted before the `.pdf` extension, every earlier
counter's name already being taken and the returned name being free; and
a save never changes the bytes readable at any previously stored path. -/
theorem claim_C2_store_path_determinism :
    (∀ d1 d2 : Bytes,
      (save [] ⟨2025, 6, 15⟩ "Amazon" "42.99" d1).1 =
        "2025/06/2025-06-15__amazon__42.99.pdf" ∧
      (save (save [] ⟨2025, 6, 15⟩ "Amazon" "42.99" d1).2
          ⟨2025, 6, 15⟩ "Amazon" "42.99" d2).1 =
        "2025/06/2025-06-15__amazon__42.99_2.pdf")
    ∧
    (∀ (fs : FS) (d : PyDate) (v a : String) (data : Bytes),
      let dir := natRepr d.year ++ "/" ++ pad2 d.month
      let base := isoDate d ++ "__" ++ slugify_vendor v ++ "__" ++ a
      ∃ k, 1 ≤ k ∧
        fsExists fs (save fs d v a data).1 = false ∧
        (∀ j, 1 ≤ j → j < k → fsExists fs (pathOf dir base j) = true) ∧
        ((k = 1 ∧ (save fs d v a data).1 = dir ++ "/" ++ base ++ ".pdf") ∨
         (2 ≤ k ∧ (save fs d v a data).1 = dir ++ "/" ++ base ++ "_" ++ natRepr k ++ ".pdf" ∧
           fsExists fs (dir ++ "/" ++ base ++ ".pdf") = true)))
    ∧
    (∀ (fs : FS) (d : PyDate) (v a : String) (data : Bytes) (p : String) (bytes : Bytes),
      fsRead fs p = some bytes → fsRead (save fs d v a data).2 p = some bytes) := by
  refine ⟨fun d1 d2 => ⟨rfl, rfl⟩, ?_, save_preserves_reads⟩
  intro fs d v a data
  refine ⟨findFreeCounter fs (natRepr d.year ++ "/" ++ pad2 d.month)
    (isoDate d ++ "__" ++ slugify_vendor v ++ "__" ++ a) (fs.length + 1) 1,
    findFreeCounter_ge fs _ _ _ 1, save_path_free fs d v a data,
    findFreeCounter_min fs _ _ _ 1, ?_⟩
  by_cases hk : findFreeCounter fs (natRepr d.year ++ "/" ++ pad2 d.month)
      (isoDate d ++ "__" ++ slugify_vendor v ++ "__" ++ a) (fs.length + 1) 1 = 1
  · left
    refine ⟨hk, ?_⟩
    have hrel : (save fs d v a data).1 = pathOf (natRepr d.year ++ "/" ++ pad2 d.month)
        (isoDate d ++ "__" ++ slugify_vendor v ++ "__" ++ a)
        (findFreeCounter fs (natRepr d.year ++ "/" ++ pad2 d.month)
          (isoDate d ++ "__" ++ slugify_vendor v ++ "__" ++ a) (fs.length + 1) 1) := rfl
    rw [hrel, hk]
    apply String.ext
    simp [pathOf, fileNameOf, String.data_append, List.append_assoc]
  · right
    have hge := findFreeCounter_ge fs (natRepr d.year ++ "/" ++ pad2 d.month)
      (isoDate d ++ "__" ++ slugify_vendor v ++ "__" ++ a) (fs.length + 1) 1
    refine ⟨by omega, ?_, ?_⟩
    · have hrel : (save fs d v a data).1 = pathOf (natRepr d.year ++ "/" ++ pad2 d.month)
          (isoDate d ++ "__" ++ slugify_vendor v ++ "__" ++ a)
          (findFreeCounter fs (natRepr d.year ++ "/" ++ pad2 d.month)
            (isoDate d ++ "__" ++ slugify_vendor v ++ "__" ++ a) (fs.length + 1) 1) := rfl
      rw [hrel]
      apply String.ext
      simp [pathOf, fileNameOf, hk, String.data_append, List.append_assoc]
    · have h1 := findFreeCounter_min fs (natRepr d.year ++ "/" ++ pad2 d.month)
        (isoDate d ++ "__" ++ slugify_vendor v ++ "__" ++ a) (fs.length + 1) 1 1
        (le_refl 1) (by omega)
      have hp1 : pathOf (natRepr d.year ++ "/" ++ pad2 d.month)
          (isoDate d ++ "__" ++ slugify_vendor v ++ "__" ++ a) 1 =
          natRepr d.year ++ "/" ++ pad2 d.month ++ "/" ++
            (isoDate d ++ "__" ++ slugify_vendor v ++ "__" ++ a) ++ ".pdf" := by
        apply String.ext
        simp [pathOf, fileNameOf, String.data_append, List.append_assoc]
      rw [hp1] at h1
      exact h1

theorem claim_C2_store_path_determinism_witness :
    (save [] ⟨2025, 6, 15⟩ "Amazon" "42.99" [1]).1 =
      "2025/06/2025-06-15__amazon__42.99.pdf" ∧
    (save (save [] ⟨2025, 6, 15⟩ "Amazon" "42.99" [1]).2
        ⟨2025, 6, 15⟩ "Amazon" "42.99" [2]).1 =
      "2025/06/2025-06-15__amazon__42.99_2.pdf" ∧
    fsRead (save (save [] ⟨2025, 6, 15⟩ "Amazon" "42.99" [1]).2
        ⟨2025, 6, 15⟩ "Amazon" "42.99" [2]).2
      "2025/06/2025-06-15__amazon__42.99.pdf" = some [1] := by
  refine ⟨(claim_C2_store_path_determinism.1 [1] [2]).1,
    (claim_C2_store_path_determinism.1 [1] [2]).2, ?_⟩
  exact claim_C2_store_path_determinism.2.2
    (save [] ⟨2025, 6, 15⟩ "Amazon" "42.99" [1]).2 ⟨2025, 6, 15⟩ "Amazon" "42.99" [2]
    "2025/06/2025-06-15__amazon__42.99.pdf" [1] (by decide)

/-- C3: for every vendor string (path-traversal sequences included), the
relative path returned by `save` splits into exactly the year and month
directories plus a filename, has no `..` or empty segment, is not
absolute, and contains exactly the two layout separators, so the vendor
contributes no separators and the path resolves inside the store root.
The amount is a `Decimal` rendering, which never contains `/`. -/
theorem claim_C3_path_safety (fs : FS) (d : PyDate) (vendor amount : String)
    (data : Bytes) (ham : '/' ∉ amount.data) :
    insideRoot (save fs d vendor amount data).1 ∧
    (((save fs d vendor amount data).1.data.filter (fun c => c = '/')).length = 2) := by
  obtain ⟨fname, hdata, hnos, hlen, hsplit⟩ := save_path_structure fs d vendor amount data ham
  constructor
  · refine ⟨?_, ?_, ?_⟩
    · rw [hdata]
      cases h : (natRepr d.year).data <;> simp [h]
    · rw [hdata]
      cases hy : (natRepr d.year).data with
      | nil => exact absurd hy (natReprChars_ne_nil d.year)
      | cons a l =>
        have ha : a ∈ natReprChars d.year := by
          have : (natRepr d.year).data = natReprChars d.year := rfl
          rw [← this, hy]
          exact List.mem_cons_self a l
        have := digits_ne_slash a (natReprChars_digits d.year a ha)
        simp [this]
    · rw [hsplit]
      intro seg hseg
      simp only [List.mem_cons, List.not_mem_nil, or_false] at hseg
      rcases hseg with rfl | rfl | rfl
      · refine ⟨natReprChars_ne_nil d.year, ?_⟩
        intro hdd
        have : '.' ∈ natReprChars d.year := by
          have h1 : (natRepr d.year).data = natReprChars d.year := rfl
          rw [← h1, hdd]
          decide
        exact digits_ne_dot '.' (natReprChars_digits d.year '.' this) rfl
      · refine ⟨pad2_ne_nil d.month, ?_⟩
        intro hdd
        have : '.' ∈ (pad2 d.month).data := by rw [hdd]; decide
        exact digits_ne_dot '.' (pad2_digits d.month '.' this) rfl
      · refine ⟨?_, ?_⟩
        · intro hdd
          rw [hdd] at hlen
          simp at hlen
        · intro hdd
          rw [hdd] at hlen
          simp at hlen
  · rw [hdata]
    have h1 : ((natRepr d.year).data.filter (fun c => c = '/')) = [] :=
      List.filter_eq_nil_iff.mpr (fun a ha => by
        simp only [decide_eq_true_eq]
        exact digits_ne_slash a (natReprChars_digits d.year a ha))
    have h2 : ((pad2 d.month).data.filter (fun c => c = '/')) = [] :=
      List.filter_eq_nil_iff.mpr (fun a ha => by
        simp only [decide_eq_true_eq]
        exact digits_ne_slash a (pad2_digits d.month a ha))
    have h3 : (fname.filter (fun c => c = '/')) = [] :=
      List.filter_eq_nil_iff.mpr (fun a ha => by
        simp only [decide_eq_true_eq]
        intro he
        exact hnos (he ▸ ha))
    simp [List.filter_append, h1, h2, h3]

theorem claim_C3_path_safety_witness :
    insideRoot (save [] ⟨2025, 1, 1⟩ "../../etc/passwd" "1.00" [0]).1 ∧
    (((save [] ⟨2025, 1, 1⟩ "../../etc/passwd" "1.00" [0]).1.data.filter
      (fun c => c = '/')).length = 2) :=
  claim_C3_path_safety [] ⟨2025, 1, 1⟩ "../../etc/passwd" "1.00" [0] (by decide)

theorem find?_of_index {α} (p : α → Bool) (l : List α) :
    ∀ (i : Nat) (a : α), l[i]? = some a → p a = true →
      (∀ j, j < i → ∀ b, l[j]? = some b → p b = false) →
      l.find? p = some a := by
  induction l with
  | nil => intro i a hget; simp at hget
  | cons x xs ih =>
    intro i a hget hp hmin
    cases i with
    | zero =>
      simp at hget
      subst hget
      simp [List.find?, hp]
    | succ i =>
      have hx : p x = false := hmin 0 (by omega) x (by simp)
      simp at hget
      rw [List.find?]
      rw [hx]
      exact ih i a hget hp (fun j hj b hb => hmin (j + 1) (by omega) b (by simpa using hb))

/-- C4: when some attachment has content type `application/pdf` after
lower-casing, `render_pdf` returns the data of the first such attachment
unchanged, whatever the bodies are; when no attachment does and a
non-empty HTML body is present, `render_pdf` hands the inline-image
rewrite of that body to the HTML renderer. -/
theorem claim_C4_render_cascade :
    (∀ (engine : String → Bytes) (raw : RawReceipt) (i : Nat) (att : Attachment),
      raw.attachments[i]? = some att →
      pyLower att.content_type = "application/pdf" →
      (∀ j, j < i → ∀ att', raw.attachments[j]? = some att' →
        pyLower att'.content_type ≠ "application/pdf") →
      render_pdf engine raw = att.data)
    ∧
    (∀ (engine : String → Bytes) (raw : RawReceipt) (h : String),
      (∀ att ∈ raw.attachments, pyLower att.content_type ≠ "application/pdf") →
      raw.html_body = some h → h ≠ "" →
      render_pdf engine raw = engine (embed_inline_images h raw.attachments)) := by
  constructor
  · intro engine raw i att hget hp hmin
    have hfind : raw.attachments.find?
        (fun a => pyLower a.content_type = "application/pdf") = some att := by
      apply find?_of_index _ _ i att hget (by simp [hp])
      intro j hj b hb
      simp only [decide_eq_false_iff_not]
      exact hmin j hj b hb
    unfold render_pdf find_pdf_attachment
    rw [hfind]
    rfl
  · intro engine raw h hno hsome hne
    have hfind : raw.attachments.find?
        (fun a => pyLower a.content_type = "application/pdf") = none := by
      rw [List.find?_eq_none]
      intro x hx
      simp only [decide_eq_true_eq]
      exact hno x hx
    have htr : truthyStr raw.html_body = true := by
      rw [hsome]
      unfold truthyStr
      simp only [Bool.not_eq_true']
      cases hl : h.data with
      | nil =>
        exfalso
        apply hne
        apply String.ext
        rw [hl]
      | cons a l => simp [hl]
    rw [hsome] at htr
    unfold render_pdf find_pdf_attachment
    rw [hfind, hsome]
    simp [htr, render_html_to_pdf]

theorem claim_C4_render_cascade_witness :
    render_pdf (fun _ => []) ⟨"m1", "S", "F", ⟨"2025-01-01T00:00:00+00:00"⟩,
      some "<p>receipt</p>", none,
      [⟨"img.jpg", "image/jpeg", [7]⟩, ⟨"receipt.pdf", "Application/PDF", [3, 1, 4]⟩]⟩
      = [3, 1, 4] ∧
    render_pdf (fun s => s.data.map Char.toNat) ⟨"m2", "S", "F",
      ⟨"2025-01-01T00:00:00+00:00"⟩, some "<b>hi</b>", none, [⟨"img.jpg", "image/jpeg", [7]⟩]⟩
      = ((embed_inline_images "<b>hi</b>" [⟨"img.jpg", "image/jpeg", [7]⟩]).data.map Char.toNat) := by
  constructor
  · exact claim_C4_render_cascade.1 (fun _ => []) _ 1 ⟨"receipt.pdf", "Application/PDF", [3, 1, 4]⟩
      (by decide) (by decide)
      (by intro j hj att' hatt'; interval_cases j <;> simp at hatt' <;> simp [← hatt'] <;> decide)
  · exact claim_C4_render_cascade.2 (fun s => s.data.map Char.toNat) _ "<b>hi</b>"
      (by decide) rfl (by decide)

theorem embedAux_nil (lookup : String → Option Attachment) (fuel : Nat) :
    embedAux lookup fuel [] = [] := by
  cases fuel <;> rfl

theorem embedAux_no_match (lookup : String → Option Attachment) (fuel : Nat)
    (c : Char) (rest : List Char) (h : matchHead (c :: rest) = false) :
    embedAux lookup (fuel + 1) (c :: rest) = c :: embedAux lookup fuel rest := by
  simp only [embedAux]
  by_cases hp : ("cid:".data.isPrefixOf (c :: rest)) = true
  · have htok : (((c :: rest).drop 4).takeWhile cidTokenChar).isEmpty = true := by
      unfold matchHead at h
      rw [hp] at h
      simpa using h
    rw [if_pos hp, if_pos htok]
  · rw [if_neg hp]

theorem takeWhile_append_of_all {p : Char → Bool} (l₁ l₂ : List Char)
    (h₁ : ∀ c ∈ l₁, p c = true)
    (h₂ : l₂.takeWhile p = []) :
    (l₁ ++ l₂).takeWhile p = l₁ ∧ (l₁ ++ l₂).dropWhile p = l₂ := by
  induction l₁ with
  | nil =>
    refine ⟨by simpa using h₂, ?_⟩
    cases l₂ with
    | nil => simp
    | cons c t =>
      simp only [List.takeWhile] at h₂
      cases hpc : p c with
      | true => rw [hpc] at h₂; simp at h₂
      | false => simp [List.dropWhile, hpc]
  | cons a l ih =>
    have ha := h₁ a (List.mem_cons_self a l)
    have hrec := ih (fun c hc => h₁ c (List.mem_cons_of_mem a hc))
    constructor
    · simp [List.takeWhile_cons, ha, hrec.1]
    · simp [List.dropWhile_cons, ha, hrec.2]

theorem embedAux_match (lookup : String → Option Attachment) (fuel : Nat)
    (tok post : List Char) (htok : tok ≠ [])
    (hall : ∀ c ∈ tok, cidTokenChar c = true)
    (hpost : post.takeWhile cidTokenChar = []) :
    embedAux lookup (fuel + 1) ('c' :: 'i' :: 'd' :: ':' :: (tok ++ post)) =
      (match lookup ⟨tok⟩ with
        | some att => (dataURI att).data
        | none => "cid:".data ++ tok) ++ embedAux lookup fuel post := by
  have hpre : ("cid:".data.isPrefixOf ('c' :: 'i' :: 'd' :: ':' :: (tok ++ post))) = true := by
    simp [List.isPrefixOf]
  have hdrop : ('c' :: 'i' :: 'd' :: ':' :: (tok ++ post)).drop 4 = tok ++ post := rfl
  have hta := takeWhile_append_of_all tok post hall hpost
  have hne : ¬(((('c' :: 'i' :: 'd' :: ':' :: (tok ++ post)).drop 4).takeWhile
      cidTokenChar).isEmpty = true) := by
    rw [hdrop, hta.1]
    cases tok with
    | nil => exact absurd rfl htok
    | cons a t => simp
  simp only [embedAux]
  rw [if_pos hpre, if_neg hne, hdrop, hta.1, hta.2]
  cases hlk : lookup ⟨tok⟩ with
  | some att => simp [hlk]
  | none => simp [hlk]

theorem length_dropWhile_le (p : Char → Bool) (l : List Char) :
    (l.dropWhile p).length ≤ l.length := by
  conv_rhs => rw [← List.takeWhile_append_dropWhile p l]
  simp only [List.length_append]
  omega

theorem takeWhile_dropWhile_nil (p : Char → Bool) (l : List Char) :
    (l.dropWhile p).takeWhile p = [] := by
  induction l with
  | nil => rfl
  | cons a t ih =>
    cases hpa : p a with
    | true => simpa [List.dropWhile_cons, hpa] using ih
    | false => simp [List.dropWhile_cons, List.takeWhile_cons, hpa]

theorem embedAux_fuel (lookup : String → Option Attachment) (fuel₁ : Nat) :
    ∀ (fuel₂ : Nat) (s : List Char), s.length ≤ fuel₁ → s.length ≤ fuel₂ →
      embedAux lookup fuel₁ s = embedAux lookup fuel₂ s := by
  induction fuel₁ with
  | zero =>
    intro fuel₂ s h₁ _
    have hs : s = [] := by cases s with
      | nil => rfl
      | cons a t => simp at h₁
    subst hs
    rw [embedAux_nil, embedAux_nil]
  | succ f ih =>
    intro fuel₂ s h₁ h₂
    cases s with
    | nil => rw [embedAux_nil, embedAux_nil]
    | cons c rest =>
      cases fuel₂ with
      | zero => simp at h₂
      | succ g =>
        have hr₁ : rest.length ≤ f := by simp at h₁; omega
        have hr₂ : rest.length ≤ g := by simp at h₂; omega
        simp only [embedAux]
        by_cases hp : ("cid:".data.isPrefixOf (c :: rest)) = true
        · rw [if_pos hp, if_pos hp]
          by_cases he : ((((c :: rest).drop 4).takeWhile cidTokenChar).isEmpty) = true
          · rw [if_pos he, if_pos he, ih g rest hr₁ hr₂]
          · rw [if_neg he, if_neg he]
            have hdl : (((c :: rest).drop 4).dropWhile cidTokenChar).length ≤ rest.length := by
              have h3 := length_dropWhile_le cidTokenChar ((c :: rest).drop 4)
              have h4 : ((c :: rest).drop 4).length ≤ rest.length := by
                rw [List.length_drop]
                simp only [List.length_cons]
                omega
              omega
            cases hlk : lookup ⟨((c :: rest).drop 4).takeWhile cidTokenChar⟩ with
            | some att =>
              simp only [hlk]
              rw [ih g (((c :: rest).drop 4).dropWhile cidTokenChar) (by omega) (by omega)]
            | none =>
              simp only [hlk]
              rw [ih g (((c :: rest).drop 4).dropWhile cidTokenChar) (by omega) (by omega)]
        · rw [if_neg hp, if_neg hp, ih g rest hr₁ hr₂]

theorem resolvedAt_append (lookup : String → Option Attachment) (u v : List Char) (i : Nat) :
    resolvedAt lookup (u ++ v) (u.length + i) = resolvedAt lookup v i := by
  unfold resolvedAt isMatchAt
  rw [List.drop_append]

theorem embedAux_gap (lookup : String → Option Attachment) (pre : List Char) :
    ∀ (rest : List Char) (fuel : Nat), pre.length + rest.length ≤ fuel →
      (∀ i, i < pre.length → isMatchAt (pre ++ rest) i = false) →
      embedAux lookup fuel (pre ++ rest) = pre ++ embedAux lookup (fuel - pre.length) rest := by
  induction pre with
  | nil =>
    intro rest fuel _ _
    simp
  | cons c pre ih =>
    intro rest fuel h₁ h₂
    cases fuel with
    | zero => simp only [List.length_cons] at h₁; omega
    | succ f =>
      have h0 : matchHead (c :: (pre ++ rest)) = false := by
        have := h₂ 0 (by simp)
        simpa [isMatchAt] using this
      rw [List.cons_append, embedAux_no_match lookup f c (pre ++ rest) h0]
      rw [ih rest f (by simp at h₁; omega) (fun i hi => by
        have := h₂ (i + 1) (by simp; omega)
        rwa [List.cons_append, show isMatchAt (c :: (pre ++ rest)) (i + 1) =
          isMatchAt (pre ++ rest) i from rfl] at this)]
      simp only [List.length_cons, List.cons_append]
      rw [show f + 1 - (pre.length + 1) = f - pre.length from by omega]

theorem embedAux_id (lookup : String → Option Attachment) (fuel : Nat) :
    ∀ (s : List Char), s.length ≤ fuel →
      (∀ i, i < s.length → resolvedAt lookup s i = false) →
      embedAux lookup fuel s = s := by
  induction fuel with
  | zero => intro s _ _; rfl
  | succ f ih =>
    intro s hlen hres
    cases s with
    | nil => rw [embedAux_nil]
    | cons c rest =>
      by_cases hm : matchHead (c :: rest) = true
      · have hm' := hm
        unfold matchHead at hm'
        have hp : ("cid:".data.isPrefixOf (c :: rest)) = true :=
          ((Bool.and_eq_true _ _).mp hm').1
        obtain ⟨t, ht⟩ := List.isPrefixOf_iff_prefix.mp hp
        have hshape : c :: rest = 'c' :: 'i' :: 'd' :: ':' :: t := by rw [← ht]; rfl
        have hdropt : (c :: rest).drop 4 = t := by rw [hshape]; rfl
        obtain ⟨tk, htk⟩ : ∃ tk, t.takeWhile cidTokenChar = tk := ⟨_, rfl⟩
        obtain ⟨dr, hdr⟩ : ∃ dr, t.dropWhile cidTokenChar = dr := ⟨_, rfl⟩
        have hdecomp : tk ++ dr = t := by
          rw [← htk, ← hdr]
          exact List.takeWhile_append_dropWhile cidTokenChar t
        have htokne : tk ≠ [] := by
          have h2 := ((Bool.and_eq_true _ _).mp hm').2
          rw [hdropt, htk] at h2
          intro hnil
          rw [hnil] at h2
          simp at h2
        have hall : ∀ x ∈ tk, cidTokenChar x = true := by
          intro x hx
          rw [← htk] at hx
          exact List.mem_takeWhile_imp hx
        have hpost : dr.takeWhile cidTokenChar = [] := by
          rw [← hdr]
          exact takeWhile_dropWhile_nil cidTokenChar t
        have hlknone : lookup ⟨tk⟩ = none := by
          have hres0 := hres 0 (by simp)
          unfold resolvedAt isMatchAt at hres0
          rw [List.drop_zero, hm, Bool.true_and, hdropt, htk] at hres0
          cases hopt : lookup ⟨tk⟩ with
          | none => rfl
          | some a => rw [hopt] at hres0; simp at hres0
        have hl3 : 1 ≤ tk.length := by
          cases hc : tk with
          | nil => exact absurd hc htokne
          | cons x xs => simp [hc]
        have hl2 : tk.length + dr.length = t.length := by
          have := congrArg List.length hdecomp
          simpa using this
        have hlen2 : dr.length ≤ f := by
          have hl1 : (c :: rest).length ≤ f + 1 := hlen
          rw [hshape] at hl1
          simp only [List.length_cons] at hl1
          omega
        have hresdr : ∀ i, i < dr.length → resolvedAt lookup dr i = false := by
          intro i hi
          have hidx := hres (4 + tk.length + i) (by
            rw [hshape]
            simp only [List.length_cons]
            omega)
          rw [hshape, ← hdecomp] at hidx
          have hassoc : ('c' :: 'i' :: 'd' :: ':' :: (tk ++ dr)) =
              (('c' :: 'i' :: 'd' :: ':' :: tk) ++ dr) := by simp
          have hlen4 : 4 + tk.length + i = ('c' :: 'i' :: 'd' :: ':' :: tk).length + i := by
            simp only [List.length_cons]
            omega
          rw [hassoc, hlen4, resolvedAt_append] at hidx
          exact hidx
        rw [hshape, ← hdecomp]
        rw [embedAux_match lookup f tk dr htokne hall hpost, hlknone]
        rw [ih dr hlen2 hresdr]
        simp
      · have hmf : matchHead (c :: rest) = false := by
          cases hmv : matchHead (c :: rest) with
          | true => exact absurd hmv hm
          | false => rfl
        rw [embedAux_no_match lookup f c rest hmf]
        have := ih rest (by simp at hlen; omega) (fun i hi => by
          have := hres (i + 1) (by simp; omega)
          rwa [show resolvedAt lookup (c :: rest) (i + 1) =
            resolvedAt lookup rest i from rfl] at this)
        rw [this]

theorem lookupImage_some_filter_ne {atts : List Attachment} {name : String} {att : Attachment}
    (h : lookupImage atts name = some att) :
    (atts.filter (fun a => strStartsWith a.content_type "image/")).isEmpty = false := by
  unfold lookupImage at h
  cases hf : atts.filter (fun a => strStartsWith a.content_type "image/") with
  | nil => rw [hf] at h; simp at h
  | cons x xs => rfl

theorem renderPieces_cons (lookup : String → Option Attachment) (p : CidPiece)
    (ps : List CidPiece) :
    renderPieces lookup (p :: ps) = renderPiece lookup p ++ renderPieces lookup ps := rfl

theorem origPieces_cons (p : CidPiece) (ps : List CidPiece) :
    origPieces (p :: ps) = origPiece p ++ origPieces ps := rfl

theorem embedAux_eq_renderPieces (lookup : String → Option Attachment) :
    ∀ (fuel : Nat) (s : List Char),
      embedAux lookup fuel s = renderPieces lookup (cidScan fuel s) := by
  intro fuel
  induction fuel with
  | zero =>
    intro s
    show s = renderPieces lookup [CidPiece.text s]
    rw [renderPieces_cons]
    simp [renderPieces, renderPiece]
  | succ f ih =>
    intro s
    cases s with
    | nil => rfl
    | cons c rest =>
      show embedAux lookup (f + 1) (c :: rest) = _
      rw [embedAux]
      show _ = renderPieces lookup (cidScan (f + 1) (c :: rest))
      rw [cidScan]
      by_cases hp : ("cid:".data.isPrefixOf (c :: rest)) = true
      · rw [if_pos hp, if_pos hp]
        by_cases he : ((((c :: rest).drop 4).takeWhile cidTokenChar).isEmpty) = true
        · rw [if_pos he, if_pos he, renderPieces_cons, ih rest]
          rfl
        · rw [if_neg he, if_neg he, renderPieces_cons]
          have hr : renderPiece lookup
              (CidPiece.ref (((c :: rest).drop 4).takeWhile cidTokenChar)) =
              match lookup ⟨((c :: rest).drop 4).takeWhile cidTokenChar⟩ with
              | some a => (dataURI a).data
              | none => "cid:".data ++ ((c :: rest).drop 4).takeWhile cidTokenChar := rfl
          rw [hr, ih]
          cases lookup ⟨((c :: rest).drop 4).takeWhile cidTokenChar⟩ with
          | some att => rfl
          | none => rfl
      · rw [if_neg hp, if_neg hp, renderPieces_cons, ih rest]
        rfl

theorem origPieces_cidScan :
    ∀ (fuel : Nat) (s : List Char), s.length ≤ fuel →
      origPieces (cidScan fuel s) = s := by
  intro fuel
  induction fuel with
  | zero =>
    intro s h
    cases s with
    | nil => rfl
    | cons c rest => simp at h
  | succ f ih =>
    intro s hlen
    cases s with
    | nil => rfl
    | cons c rest =>
      rw [cidScan]
      by_cases hp : ("cid:".data.isPrefixOf (c :: rest)) = true
      · rw [if_pos hp]
        by_cases he : ((((c :: rest).drop 4).takeWhile cidTokenChar).isEmpty) = true
        · rw [if_pos he, origPieces_cons,
            ih rest (by simp only [List.length_cons] at hlen; omega)]
          rfl
        · rw [if_neg he, origPieces_cons]
          obtain ⟨t, ht⟩ : ∃ t, c :: rest = 'c' :: 'i' :: 'd' :: ':' :: t := by
            have hpre := List.isPrefixOf_iff_prefix.mp hp
            obtain ⟨t, ht⟩ := hpre
            exact ⟨t, ht.symm⟩
          have hdrop : (c :: rest).drop 4 = t := by rw [ht]; rfl
          have hdlen : t.length + 4 ≤ f + 1 := by
            have : (c :: rest).length = t.length + 4 := by rw [ht]; simp
            omega
          rw [hdrop]
          have hrec : origPieces (cidScan f (t.dropWhile cidTokenChar)) =
              t.dropWhile cidTokenChar := by
            apply ih
            have h1 := length_dropWhile_le cidTokenChar t
            omega
          rw [hrec, ht]
          show ("cid:".data ++ t.takeWhile cidTokenChar) ++ t.dropWhile cidTokenChar =
            "cid:".data ++ t
          rw [List.append_assoc, List.takeWhile_append_dropWhile]
      · rw [if_neg hp, origPieces_cons,
          ih rest (by simp only [List.length_cons] at hlen; omega)]
        rfl

theorem cidScan_ref_token :
    ∀ (fuel : Nat) (s t : List Char),
      CidPiece.ref t ∈ cidScan fuel s → t ≠ [] ∧ t.all cidTokenChar := by
  intro fuel
  induction fuel with
  | zero =>
    intro s t ht
    simp [cidScan] at ht
  | succ f ih =>
    intro s t ht
    cases s with
    | nil => simp [cidScan] at ht
    | cons c rest =>
      rw [cidScan] at ht
      by_cases hp : ("cid:".data.isPrefixOf (c :: rest)) = true
      · rw [if_pos hp] at ht
        by_cases he : ((((c :: rest).drop 4).takeWhile cidTokenChar).isEmpty) = true
        · rw [if_pos he] at ht
          rcases List.mem_cons.mp ht with h | h
          · simp at h
          · exact ih rest t h
        · rw [if_neg he] at ht
          rcases List.mem_cons.mp ht with h | h
          · simp only [CidPiece.ref.injEq] at h
            subst h
            refine ⟨?_, ?_⟩
            · intro hnil
              rw [hnil] at he
              exact he rfl
            · exact List.all_eq_true.mpr (fun x hx => List.mem_takeWhile_imp hx)
          · exact ih _ t h
      · rw [if_neg hp] at ht
        rcases List.mem_cons.mp ht with h | h
        · simp at h
        · exact ih rest t h

theorem lookupImage_none_of_no_images {atts : List Attachment}
    (hf : atts.filter (fun a => strStartsWith a.content_type "image/") = [])
    (name : String) : lookupImage atts name = none := by
  unfold lookupImage
  rw [hf]
  rfl

theorem renderPieces_eq_origPieces (lookup : String → Option Attachment)
    (hnone : ∀ t : List Char, lookup ⟨t⟩ = none) :
    ∀ ps : List CidPiece, renderPieces lookup ps = origPieces ps := by
  intro ps
  induction ps with
  | nil => rfl
  | cons p l ih =>
    rw [renderPieces_cons, origPieces_cons, ih]
    cases p with
    | text s => rfl
    | ref t =>
      have hr : renderPiece lookup (CidPiece.ref t) =
          match lookup ⟨t⟩ with
          | some a => (dataURI a).data
          | none => "cid:".data ++ t := rfl
      rw [hr, hnone t]
      rfl

/-- C5: the `cid:` rewriting of `_embed_inline_images`, settled for every
markup body.  (i) The rewritten markup always equals the rendering of a
decomposition of the body into verbatim text and maximal `cid:<token>`
matches; the decomposition (`cidScan`) depends only on the body, (ii)
reassembles to it character-for-character, and (iii) only carries
well-formed nonempty tokens.  (iv) A match whose token is the filename of
an image attachment renders as exactly `data:<content-type>;base64,<payload>`
for that attachment, and (v) an unresolved match renders verbatim — so in
a body mixing unresolved and resolvable references each is settled
independently, an unresolved one before a resolvable one included.
(vi) If no position of the markup carries a match whose token resolves in
the image attachment map, the markup is returned unchanged.  (vii) A
maximal resolvable reference preceded by match-free text is replaced in
place, the rest of the markup being processed the same way.  (viii) On
the spec's example the rewritten markup carries the `data:` URI and no
`cid:` token survives, and on a body where an unresolved reference
precedes a resolvable one only the resolvable one is rewritten. -/
theorem claim_C5_inline_image_embedding :
    (∀ (atts : List Attachment) (html : String),
      (embed_inline_images html atts).data =
        renderPieces (lookupImage atts) (cidScan html.data.length html.data))
    ∧
    (∀ html : String, origPieces (cidScan html.data.length html.data) = html.data)
    ∧
    (∀ (html : String) (t : List Char),
      CidPiece.ref t ∈ cidScan html.data.length html.data →
      t ≠ [] ∧ t.all cidTokenChar)
    ∧
    (∀ (atts : List Attachment) (t : List Char) (att : Attachment),
      lookupImage atts ⟨t⟩ = some att →
      renderPiece (lookupImage atts) (CidPiece.ref t) = (dataURI att).data)
    ∧
    (∀ (atts : List Attachment) (t : List Char),
      lookupImage atts ⟨t⟩ = none →
      renderPiece (lookupImage atts) (CidPiece.ref t) = origPiece (CidPiece.ref t))
    ∧
    (∀ (atts : List Attachment) (html : String),
      (∀ i, i < html.data.length → resolvedAt (lookupImage atts) html.data i = false) →
      embed_inline_images html atts = html)
    ∧
    (∀ (atts : List Attachment) (pre tok post : List Char) (att : Attachment),
      tok ≠ [] → (∀ x ∈ tok, cidTokenChar x = true) →
      post.takeWhile cidTokenChar = [] →
      (∀ i, i < pre.length →
        isMatchAt (pre ++ ('c' :: 'i' :: 'd' :: ':' :: (tok ++ post))) i = false) →
      lookupImage atts ⟨tok⟩ = some att →
      (embed_inline_images ⟨pre ++ ('c' :: 'i' :: 'd' :: ':' :: (tok ++ post))⟩ atts).data =
        pre ++ (dataURI att).data ++ (embed_inline_images ⟨post⟩ atts).data)
    ∧
    (embed_inline_images "<img src=\"cid:logo\">" [⟨"logo", "image/png", [137, 80, 78, 71]⟩]
        = "<img src=\"data:image/png;base64,iVBORw==\">"
      ∧ containsSub "cid:".data ("<img src=\"data:image/png;base64,iVBORw==\">").data
          = false)
    ∧
    (embed_inline_images "cid:missing then cid:logo" [⟨"logo", "image/png", [137, 80, 78, 71]⟩]
        = "cid:missing then data:image/png;base64,iVBORw=="
      ∧ containsSub "cid:missing".data
          ("cid:missing then data:image/png;base64,iVBORw==").data = true
      ∧ containsSub "cid:logo".data
          ("cid:missing then data:image/png;base64,iVBORw==").data = false) := by
  refine ⟨?_, ?_, ?_, ?_, ?_, ?_, ?_, ⟨by decide, by decide⟩,
    by decide, by decide, by decide⟩
  · intro atts html
    unfold embed_inline_images
    by_cases hf : (atts.filter (fun a => strStartsWith a.content_type "image/")).isEmpty = true
    · rw [if_pos hf]
      have hfe : atts.filter (fun a => strStartsWith a.content_type "image/") = [] := by
        cases hfl : atts.filter (fun a => strStartsWith a.content_type "image/") with
        | nil => rfl
        | cons x xs => rw [hfl] at hf; simp at hf
      rw [renderPieces_eq_origPieces (lookupImage atts)
        (fun t => lookupImage_none_of_no_images hfe ⟨t⟩),
        origPieces_cidScan html.data.length html.data (le_refl _)]
    · rw [if_neg hf]
      exact embedAux_eq_renderPieces (lookupImage atts) html.data.length html.data
  · intro html
    exact origPieces_cidScan html.data.length html.data (le_refl _)
  · intro html t ht
    exact cidScan_ref_token html.data.length html.data t ht
  · intro atts t att h
    have hunf : renderPiece (lookupImage atts) (CidPiece.ref t) =
        match lookupImage atts ⟨t⟩ with
        | some a => (dataURI a).data
        | none => "cid:".data ++ t := rfl
    rw [hunf, h]
  · intro atts t h
    have hunf : renderPiece (lookupImage atts) (CidPiece.ref t) =
        match lookupImage atts ⟨t⟩ with
        | some a => (dataURI a).data
        | none => "cid:".data ++ t := rfl
    rw [hunf, h]
    rfl
  · intro atts html hres
    unfold embed_inline_images
    by_cases hf : (atts.filter (fun a => strStartsWith a.content_type "image/")).isEmpty = true
    · rw [if_pos hf]
    · rw [if_neg hf]
      apply String.ext
      exact embedAux_id (lookupImage atts) html.data.length html.data (le_refl _) hres
  · intro atts pre tok post att htok hall hpost hgap hlk
    have hfne := lookupImage_some_filter_ne hlk
    have hfne' : ¬((atts.filter (fun a => strStartsWith a.content_type "image/")).isEmpty = true) := by
      rw [hfne]
      simp
    unfold embed_inline_images
    rw [if_neg hfne', if_neg hfne']
    have hdata : (String.mk (pre ++ ('c' :: 'i' :: 'd' :: ':' :: (tok ++ post)))).data =
        pre ++ ('c' :: 'i' :: 'd' :: ':' :: (tok ++ post)) := rfl
    rw [hdata]
    have hlen : (pre ++ ('c' :: 'i' :: 'd' :: ':' :: (tok ++ post))).length =
        pre.length + (4 + (tok.length + post.length)) := by
      simp only [List.length_append, List.length_cons]
      omega
    have hlenc : ('c' :: 'i' :: 'd' :: ':' :: (tok ++ post)).length =
        4 + (tok.length + post.length) := by
      simp only [List.length_cons, List.length_append]
      omega
    rw [embedAux_gap (lookupImage atts) pre ('c' :: 'i' :: 'd' :: ':' :: (tok ++ post))
      (pre ++ ('c' :: 'i' :: 'd' :: ':' :: (tok ++ post))).length
      (by rw [hlen, hlenc]) hgap]
    have hsub : (pre ++ ('c' :: 'i' :: 'd' :: ':' :: (tok ++ post))).length - pre.length =
        (3 + tok.length + post.length) + 1 := by
      rw [hlen]
      omega
    rw [hsub, embedAux_match (lookupImage atts) (3 + tok.length + post.length) tok post
      htok hall hpost, hlk]
    rw [embedAux_fuel (lookupImage atts) (3 + tok.length + post.length) post.length post
      (by omega) (le_refl _)]
    simp [List.append_assoc]

theorem claim_C5_inline_image_embedding_witness :
    (embed_inline_images "<img src=\"cid:missing\">" [⟨"other", "image/png", [1]⟩]
      = "<img src=\"cid:missing\">") ∧
    ((embed_inline_images ⟨"<img src=\"".data ++ ('c' :: 'i' :: 'd' :: ':' ::
        ("logo".data ++ "\">".data))⟩ [⟨"logo", "image/png", [137, 80, 78, 71]⟩]).data =
      "<img src=\"".data ++ (dataURI ⟨"logo", "image/png", [137, 80, 78, 71]⟩).data ++
        (embed_inline_images ⟨"\">".data⟩ [⟨"logo", "image/png", [137, 80, 78, 71]⟩]).data) ∧
    ("logo".data ≠ [] ∧ "logo".data.all cidTokenChar) ∧
    (renderPiece (lookupImage [⟨"logo", "image/png", [137, 80, 78, 71]⟩])
        (CidPiece.ref "logo".data)
      = (dataURI ⟨"logo", "image/png", [137, 80, 78, 71]⟩).data) ∧
    (renderPiece (lookupImage [⟨"logo", "image/png", [137, 80, 78, 71]⟩])
        (CidPiece.ref "missing".data)
      = origPiece (CidPiece.ref "missing".data)) := by
  refine ⟨?_, ?_, ?_, ?_, ?_⟩
  · exact claim_C5_inline_image_embedding.2.2.2.2.2.1 [⟨"other", "image/png", [1]⟩]
      "<img src=\"cid:missing\">" (by decide)
  · exact claim_C5_inline_image_embedding.2.2.2.2.2.2.1
      [⟨"logo", "image/png", [137, 80, 78, 71]⟩]
      "<img src=\"".data "logo".data "\">".data ⟨"logo", "image/png", [137, 80, 78, 71]⟩
      (by decide) (by decide) (by decide) (by decide) (by decide)
  · exact claim_C5_inline_image_embedding.2.2.1 "cid:missing then cid:logo"
      "logo".data (by decide)
  · exact claim_C5_inline_image_embedding.2.2.2.1 [⟨"logo", "image/png", [137, 80, 78, 71]⟩]
      "logo".data ⟨"logo", "image/png", [137, 80, 78, 71]⟩ (by rfl)
  · exact claim_C5_inline_image_embedding.2.2.2.2.1 [⟨"logo", "image/png", [137, 80, 78, 71]⟩]
      "missing".data (by rfl)

/-- C9 (code bug at the character-reference clause): the tag stripper the
Prompt Builder actually runs decodes character references instead of
preserving them verbatim, because `_HTMLTagStripper` inherits
`HTMLParser`'s default `convert_charrefs=True` and its
`handle_entityref`/`handle_charref` overrides are never called.  At the
failing input the body section of the prompt is `Price & tax` and the
escaped form `&amp;` appears nowhere in the prompt. -/
theorem claim_C9_entity_refs_decoded :
    strip_html_tags "<p>Price &amp; tax</p>" = "Price & tax" ∧
    build_prompt ⟨"t", "HTML Receipt", "shop@example.com", ⟨"2025-01-01T00:00:00+00:00"⟩,
      some "<p>Price &amp; tax</p>", none, []⟩ =
      "Subject: HTML Receipt\nFrom: shop@example.com\nDate: 2025-01-01T00:00:00+00:00\n\n--- Email Body ---\nPrice & tax" ∧
    containsSub "&amp;".data (build_prompt ⟨"t", "HTML Receipt", "shop@example.com",
      ⟨"2025-01-01T00:00:00+00:00"⟩, some "<p>Price &amp; tax</p>", none, []⟩).data = false := by
  refine ⟨by decide, by decide, by decide⟩

/-- C10: present-but-empty bodies behave exactly like absent bodies: an
empty-string HTML body or text body leaves `render_pdf` unchanged when
replaced by `none` (the HTML tier and the text tier test truthiness),
and the Prompt Builder treats an empty-string text body as absent. -/
theorem claim_C10_truthiness :
    (∀ (engine : String → Bytes) (raw : RawReceipt), raw.html_body = some "" →
      render_pdf engine raw = render_pdf engine {raw with html_body := none}) ∧
    (∀ (engine : String → Bytes) (raw : RawReceipt), raw.text_body = some "" →
      render_pdf engine raw = render_pdf engine {raw with text_body := none}) ∧
    (∀ (raw : RawReceipt), raw.text_body = some "" →
      build_prompt raw = build_prompt {raw with text_body := none}) := by
  refine ⟨?_, ?_, ?_⟩
  · intro engine raw hsome
    obtain ⟨sid, subj, snd, dt, hb, tb, atts⟩ := raw
    simp only at hsome
    subst hsome
    rfl
  · intro engine raw hsome
    obtain ⟨sid, subj, snd, dt, hb, tb, atts⟩ := raw
    simp only at hsome
    subst hsome
    rfl
  · intro raw hsome
    obtain ⟨sid, subj, snd, dt, hb, tb, atts⟩ := raw
    simp only at hsome
    subst hsome
    rfl

theorem claim_C10_truthiness_witness :
    render_pdf (fun s => s.data.map Char.toNat)
      ⟨"w", "S", "F", ⟨"2025-01-01T00:00:00+00:00"⟩, some "", some "T", []⟩ =
      render_pdf (fun s => s.data.map Char.toNat)
        ⟨"w", "S", "F", ⟨"2025-01-01T00:00:00+00:00"⟩, none, some "T", []⟩ ∧
    render_pdf (fun s => s.data.map Char.toNat)
      ⟨"w", "S", "F", ⟨"2025-01-01T00:00:00+00:00"⟩, none, some "", []⟩ =
      render_pdf (fun s => s.data.map Char.toNat)
        ⟨"w", "S", "F", ⟨"2025-01-01T00:00:00+00:00"⟩, none, none, []⟩ ∧
    build_prompt ⟨"w", "S", "F", ⟨"2025-01-01T00:00:00+00:00"⟩, some "<b>h</b>", some "", []⟩ =
      build_prompt ⟨"w", "S", "F", ⟨"2025-01-01T00:00:00+00:00"⟩, some "<b>h</b>", none, []⟩ := by
  refine ⟨claim_C10_truthiness.1 _ _ rfl, claim_C10_truthiness.2.1 _ _ rfl,
    claim_C10_truthiness.2.2 _ rfl⟩

/-- C8: constructing Extracted Metadata fails whenever the vendor is
empty, the amount is ≤ 0, the confidence leaves [0, 1], or a given
currency is not exactly three uppercase letters; on valid input the
stored fields are exactly the given values (nothing clamped or
defaulted) with `"USD"` only substituted for an absent currency. -/
theorem claim_C8_metadata_validation (vendor : String) (amount : Rat)
    (currency : Option String) (date : PyDate) (description : Option String)
    (confidence : Rat) :
    (vendor = "" →
      mkReceiptMetadata vendor amount currency date description confidence = none) ∧
    (amount ≤ 0 →
      mkReceiptMetadata vendor amount currency date description confidence = none) ∧
    (confidence < 0 ∨ 1 < confidence →
      mkReceiptMetadata vendor amount currency date description confidence = none) ∧
    (∀ c, currency = some c → validCurrency c = false →
      mkReceiptMetadata vendor amount currency date description confidence = none) ∧
    (vendor ≠ "" → 0 < amount → 0 ≤ confidence → confidence ≤ 1 →
      (∀ c, currency = some c → validCurrency c = true) →
      mkReceiptMetadata vendor amount currency date description confidence =
        some ⟨vendor, amount, currency.getD "USD", date, description, confidence⟩) := by
  refine ⟨?_, ?_, ?_, ?_, ?_⟩
  · intro h
    simp [mkReceiptMetadata, h]
  · intro h
    unfold mkReceiptMetadata
    by_cases hv : vendor = "" <;> simp [hv, h]
  · intro h
    unfold mkReceiptMetadata
    by_cases hv : vendor = ""
    · simp [hv]
    · by_cases ha : amount ≤ 0
      · simp [hv, ha]
      · by_cases hc : (match currency with | some c => !validCurrency c | none => false) = true
        · simp [hv, ha, hc]
        · simp [hv, ha, hc, h]
  · intro c hc hbad
    unfold mkReceiptMetadata
    by_cases hv : vendor = ""
    · simp [hv]
    · by_cases ha : amount ≤ 0
      · simp [hv, ha]
      · subst hc
        simp [hv, ha, hbad]
  · intro hv ha hc0 hc1 hcur
    unfold mkReceiptMetadata
    rw [if_neg hv, if_neg (not_le.mpr ha)]
    cases currency with
    | none =>
      rw [if_neg (by simp : ¬((match (none : Option String) with
          | some c => !validCurrency c | none => false) = true))]
      rw [if_neg (by push_neg; exact ⟨hc0, hc1⟩)]
    | some c =>
      have hvc := hcur c rfl
      rw [if_neg (by simp [hvc] : ¬((match (some c : Option String) with
          | some c => !validCurrency c | none => false) = true))]
      rw [if_neg (by push_neg; exact ⟨hc0, hc1⟩)]

theorem claim_C8_metadata_validation_witness :
    mkReceiptMetadata "" (10 : Rat) none ⟨2025, 6, 15⟩ none (9 / 10 : Rat) = none ∧
    mkReceiptMetadata "Amazon" (0 : Rat) none ⟨2025, 6, 15⟩ none (9 / 10 : Rat) = none ∧
    mkReceiptMetadata "Amazon" (10 : Rat) none ⟨2025, 6, 15⟩ none (11 / 10 : Rat) = none ∧
    mkReceiptMetadata "Amazon" (10 : Rat) (some "usd") ⟨2025, 6, 15⟩ none (9 / 10 : Rat)
      = none ∧
    mkReceiptMetadata "Amazon" (4299 / 100 : Rat) none ⟨2025, 6, 15⟩ none (19 / 20 : Rat)
      = some ⟨"Amazon", (4299 / 100 : Rat), "USD", ⟨2025, 6, 15⟩, none, (19 / 20 : Rat)⟩ := by
  refine ⟨(claim_C8_metadata_validation "" 10 none ⟨2025, 6, 15⟩ none (9 / 10)).1 rfl,
    (claim_C8_metadata_validation "Amazon" 0 none ⟨2025, 6, 15⟩ none (9 / 10)).2.1 (by norm_num),
    (claim_C8_metadata_validation "Amazon" 10 none ⟨2025, 6, 15⟩ none (11 / 10)).2.2.1
      (by norm_num),
    (claim_C8_metadata_validation "Amazon" 10 (some "usd") ⟨2025, 6, 15⟩ none (9 / 10)).2.2.2.1
      "usd" rfl (by decide), ?_⟩
  have := (claim_C8_metadata_validation "Amazon" (4299 / 100) none ⟨2025, 6, 15⟩ none
    (19 / 20)).2.2.2.2 (by decide) (by norm_num) (by norm_num) (by norm_num)
    (fun c hc => by cases hc)
  simpa using this

/-- C6: the computed identity is the native `Message-ID` stripped of
surrounding whitespace when that header is present and non-empty;
otherwise it is the SHA-256 hex digest of subject, date header and
sender header concatenated in that order with the `|` delimiter, and
this fallback is identical for any two messages sharing that header
triple. -/
theorem claim_C6_identity (msg : EmailMsg) :
    (∀ mid, msg.messageId = some mid → mid ≠ "" → get_message_id msg = pyStrip mid) ∧
    ((msg.messageId = none ∨ msg.messageId = some "") →
      get_message_id msg = sha256hex (utf8Bytes (msg.subjectH.getD "" ++ "|" ++
        msg.dateH.getD "" ++ "|" ++ msg.fromH.getD ""))) ∧
    (∀ msg' : EmailMsg, (msg.messageId = none ∨ msg.messageId = some "") →
      (msg'.messageId = none ∨ msg'.messageId = some "") →
      msg.subjectH = msg'.subjectH → msg.dateH = msg'.dateH → msg.fromH = msg'.fromH →
      get_message_id msg = get_message_id msg') := by
  have hfb : ∀ m : EmailMsg, (m.messageId = none ∨ m.messageId = some "") →
      get_message_id m = sha256hex (utf8Bytes (m.subjectH.getD "" ++ "|" ++
        m.dateH.getD "" ++ "|" ++ m.fromH.getD "")) := by
    intro m hm
    unfold get_message_id
    have htr : truthyStr m.messageId = false := by
      rcases hm with hm | hm <;> rw [hm] <;> rfl
    rw [htr]
    simp only [Bool.false_eq_true, if_false]
    rfl
  refine ⟨?_, hfb msg, ?_⟩
  · intro mid hmid hne
    unfold get_message_id
    have htr : truthyStr msg.messageId = true := by
      rw [hmid]
      unfold truthyStr
      simp only [Bool.not_eq_true']
      cases hl : mid.data with
      | nil =>
        exfalso
        apply hne
        apply String.ext
        rw [hl]
      | cons a l => simp [hl]
    rw [htr, if_pos rfl, hmid]
    rfl
  · intro msg' hm hm' hs hd hf
    rw [hfb msg hm, hfb msg' hm', hs, hd, hf]

theorem claim_C6_identity_witness :
    get_message_id ⟨some "  <spaced@mail.com>  ", some "S", some "F", some "D",
      none, none, []⟩ = "<spaced@mail.com>" ∧
    get_message_id ⟨none, some "Test Subject", some "sender@example.com",
      some "Mon, 15 Jun 2025 10:30:00 +0000", none, none, []⟩ =
      "f8de0f0db2c6f3ccc82cf75c3194d7c6177d86ec2738fca1c6d30c5fa163cee3" := by
  constructor
  · have h := (claim_C6_identity ⟨some "  <spaced@mail.com>  ", some "S", some "F",
      some "D", none, none, []⟩).1 "  <spaced@mail.com>  " rfl (by decide)
    rw [h]
    decide
  · have h := (claim_C6_identity ⟨none, some "Test Subject", some "sender@example.com",
      some "Mon, 15 Jun 2025 10:30:00 +0000", none, none, []⟩).2.1 (Or.inl rfl)
    rw [h]
    decide

/-- C1 counterexample: a message whose `Date` header is present but
unparseable is not normalized with the ingestion time — `_parse_message`
raises (the date-parse failure fails the message) and the adapter drops
it from the scan. -/
theorem claim_C1_counterexample :
    parse_message envFix badDateMsg "<bad@example.com>" = .error () ∧
    fetch_unprocessed envFix [some badDateMsg] [] = [] := by
  constructor <;> rfl

theorem fetch_nil (env : MailEnv) (pids : List String) :
    fetch_unprocessed env [] pids = [] := rfl

theorem fetch_cons_none (env : MailEnv) (rest : List (Option EmailMsg))
    (pids : List String) :
    fetch_unprocessed env (none :: rest) pids = fetch_unprocessed env rest pids := rfl

theorem fetch_cons_some (env : MailEnv) (msg : EmailMsg) (rest : List (Option EmailMsg))
    (pids : List String) :
    fetch_unprocessed env (some msg :: rest) pids =
      if pids.contains (get_message_id msg) then fetch_unprocessed env rest pids
      else
        match parse_message env msg (get_message_id msg) with
        | .ok r => r :: fetch_unprocessed env rest pids
        | .error _ => fetch_unprocessed env rest pids := rfl

/-- C1 (amended): the current-time substitution covers exactly the
absent-or-empty `Date` header; a present, non-empty, unparseable date
header makes `_parse_message` fail, and the adapter then skips the
message (continuing with the rest of the scan) instead of yielding it. -/
theorem claim_C1_date_fallback (env : MailEnv) (msg : EmailMsg) (sid : String) :
    ((msg.dateH = none ∨ msg.dateH = some "") →
      parse_message env msg sid = .ok ⟨sid, decode_header_value env msg.subjectH,
        decode_header_value env msg.fromH, env.now, msg.htmlBody, msg.textBody,
        msg.attachments⟩) ∧
    (∀ ds, msg.dateH = some ds → ds ≠ "" → env.parsedate ds = none →
      parse_message env msg sid = .error ()) ∧
    (∀ rest pids, parse_message env msg (get_message_id msg) = .error () →
      pids.contains (get_message_id msg) = false →
      fetch_unprocessed env (some msg :: rest) pids = fetch_unprocessed env rest pids) := by
  refine ⟨?_, ?_, ?_⟩
  · intro hm
    unfold parse_message
    rcases hm with hm | hm <;> rw [hm]
    rfl
  · intro ds hds hne hpd
    unfold parse_message
    rw [hds]
    simp [hne, hpd]
  · intro rest pids herr hcon
    rw [fetch_cons_some, if_neg (show ¬(pids.contains (get_message_id msg) = true)
      from by rw [hcon]; simp), herr]

theorem claim_C1_date_fallback_witness :
    parse_message envFix ⟨some "<m@x>", some "S", some "F", none, none, some "b", []⟩
      "<m@x>" = .ok ⟨"<m@x>", "S", "F", ⟨"2026-10-12T00:00:00+00:00"⟩, none, some "b", []⟩ ∧
    parse_message envFix badDateMsg "<bad@example.com>" = .error () ∧
    fetch_unprocessed envFix [some badDateMsg] [] = fetch_unprocessed envFix [] [] := by
  refine ⟨?_, ?_, ?_⟩
  · exact (claim_C1_date_fallback envFix
      ⟨some "<m@x>", some "S", some "F", none, none, some "b", []⟩ "<m@x>").1 (Or.inl rfl)
  · exact (claim_C1_date_fallback envFix badDateMsg "<bad@example.com>").2.1
      "not a date" rfl (by decide) rfl
  · exact (claim_C1_date_fallback envFix badDateMsg "x").2.2 [] [] rfl rfl

theorem parse_message_source_id (env : MailEnv) (msg : EmailMsg) (sid : String)
    (r : RawReceipt) (h : parse_message env msg sid = .ok r) : r.source_id = sid := by
  obtain ⟨mid, sub, frm, dh, hb, tb, atts⟩ := msg
  cases dh with
  | none =>
    simp only [parse_message, Except.ok.injEq] at h
    rw [← h]
  | some ds =>
    simp only [parse_message] at h
    by_cases hds : ds = ""
    · rw [if_pos hds] at h
      simp only [Except.ok.injEq] at h
      rw [← h]
    · rw [if_neg hds] at h
      cases hpd : env.parsedate ds with
      | some d =>
        rw [hpd] at h
        simp only [Except.ok.injEq] at h
        rw [← h]
      | none =>
        rw [hpd] at h
        simp at h

theorem fetch_count_zero (env : MailEnv) (pids : List String) (sid : String) :
    ∀ mailbox : List (Option EmailMsg),
      (∀ m : EmailMsg, some m ∈ mailbox → get_message_id m ≠ sid) →
      (fetch_unprocessed env mailbox pids).countP
        (fun r => r.source_id = sid) = 0 := by
  intro mailbox
  induction mailbox with
  | nil => intro _; rfl
  | cons head rest ih =>
    intro hno
    cases head with
    | none =>
      rw [fetch_cons_none]
      exact ih (fun m hm => hno m (List.mem_cons_of_mem _ hm))
    | some m =>
      rw [fetch_cons_some]
      by_cases hc : pids.contains (get_message_id m) = true
      · rw [if_pos hc]
        exact ih (fun m' hm => hno m' (List.mem_cons_of_mem _ hm))
      · rw [if_neg hc]
        cases hp : parse_message env m (get_message_id m) with
        | ok r =>
          rw [List.countP_cons]
          have hsid := parse_message_source_id env m (get_message_id m) r hp
          have hdec : decide (r.source_id = sid) = false := by
            simp only [decide_eq_false_iff_not]
            rw [hsid]
            exact hno m (List.mem_cons_self _ _)
          rw [hdec]
          simp only [Bool.false_eq_true, if_false, Nat.add_zero]
          exact ih (fun m' hm => hno m' (List.mem_cons_of_mem _ hm))
        | error e =>
          exact ih (fun m' hm => hno m' (List.mem_cons_of_mem _ hm))

/-- C7 counterexample: a fetched message whose identity is not in
`processed_ids` but whose parse fails (here: an unparseable `Date`
header) is yielded zero times in the scan, not exactly once as the
claim states. -/
theorem claim_C7_counterexample :
    ([] : List String).contains (get_message_id badDateMsg) = false ∧
    (fetch_unprocessed envFix [some badDateMsg] []).countP
      (fun r => r.source_id = get_message_id badDateMsg) = 0 := by
  constructor <;> rfl

/-- C7 (amended): every yielded receipt's identity is outside
`processed_ids`; a message whose identity is in the set is skipped
before `_parse_message` runs (the scan is unchanged whatever that
message's parse outcome would be); and a message that is fetched,
listed once, whose identity is in no other listed message and not in
the set, and which parses successfully, is yielded exactly once. -/
theorem claim_C7_dedup (env : MailEnv) :
    (∀ (mailbox : List (Option EmailMsg)) (pids : List String) (r : RawReceipt),
      r ∈ fetch_unprocessed env mailbox pids → pids.contains r.source_id = false) ∧
    (∀ (msg : EmailMsg) (rest : List (Option EmailMsg)) (pids : List String),
      pids.contains (get_message_id msg) = true →
      fetch_unprocessed env (some msg :: rest) pids = fetch_unprocessed env rest pids) ∧
    (∀ (mailbox : List (Option EmailMsg)) (pids : List String) (msg : EmailMsg)
       (receipt : RawReceipt),
      pids.contains (get_message_id msg) = false →
      parse_message env msg (get_message_id msg) = .ok receipt →
      mailbox.countP (fun m => m = some msg) = 1 →
      (∀ m' : EmailMsg, some m' ∈ mailbox → m' ≠ msg →
        get_message_id m' ≠ get_message_id msg) →
      (fetch_unprocessed env mailbox pids).countP
        (fun r => r.source_id = get_message_id msg) = 1) := by
  refine ⟨?_, ?_, ?_⟩
  · intro mailbox
    induction mailbox with
    | nil => intro pids r hr; simp [fetch_nil] at hr
    | cons head rest ih =>
      intro pids r hr
      cases head with
      | none =>
        rw [fetch_cons_none] at hr
        exact ih pids r hr
      | some m =>
        rw [fetch_cons_some] at hr
        by_cases hc : pids.contains (get_message_id m) = true
        · rw [if_pos hc] at hr
          exact ih pids r hr
        · rw [if_neg hc] at hr
          cases hp : parse_message env m (get_message_id m) with
          | ok rp =>
            rw [hp] at hr
            rcases List.mem_cons.mp hr with hr | hr
            · rw [hr, parse_message_source_id env m (get_message_id m) rp hp]
              cases hcv : pids.contains (get_message_id m) with
              | false => rfl
              | true => exact absurd hcv hc
            · exact ih pids r hr
          | error e =>
            rw [hp] at hr
            exact ih pids r hr
  · intro msg rest pids hc
    rw [fetch_cons_some, if_pos hc]
  · intro mailbox
    induction mailbox with
    | nil => intro pids msg receipt _ _ hcount _; simp at hcount
    | cons head rest ih =>
      intro pids msg receipt hfresh hok hcount huniq
      cases head with
      | none =>
        rw [fetch_cons_none]
        rw [List.countP_cons] at hcount
        have hdn : decide ((none : Option EmailMsg) = some msg) = false := by simp
        rw [hdn] at hcount
        simp only [Bool.false_eq_true, if_false, Nat.add_zero] at hcount
        exact ih pids msg receipt hfresh hok hcount
          (fun mp hm => huniq mp (List.mem_cons_of_mem _ hm))
      | some m =>
        by_cases hm : m = msg
        · subst hm
          rw [fetch_cons_some, if_neg (by rw [hfresh]; simp), hok, List.countP_cons]
          have hdec : decide (receipt.source_id = get_message_id m) = true := by
            simp only [decide_eq_true_eq]
            exact parse_message_source_id env m (get_message_id m) receipt hok
          rw [hdec]
          rw [List.countP_cons] at hcount
          have hdm : decide ((some m : Option EmailMsg) = some m) = true := by simp
          rw [hdm] at hcount
          simp only [if_true] at hcount
          have hrest0 : rest.countP (fun x => x = some m) = 0 := by omega
          have hnom : ∀ mp : EmailMsg, some mp ∈ rest →
              get_message_id mp ≠ get_message_id m := by
            intro mp hmp heq
            by_cases hmm : mp = m
            · subst hmm
              have := List.countP_eq_zero.mp hrest0 (some mp) hmp
              simp at this
            · exact huniq mp (List.mem_cons_of_mem _ hmp) hmm heq
          rw [fetch_count_zero env pids (get_message_id m) rest hnom]
          simp
        · rw [List.countP_cons] at hcount
          have hdm : decide ((some m : Option EmailMsg) = some msg) = false := by simp [hm]
          rw [hdm] at hcount
          simp only [Bool.false_eq_true, if_false, Nat.add_zero] at hcount
          have hrec := ih pids msg receipt hfresh hok hcount
            (fun mp hmp => huniq mp (List.mem_cons_of_mem _ hmp))
          have hmne : get_message_id m ≠ get_message_id msg :=
            huniq m (List.mem_cons_self _ _) hm
          rw [fetch_cons_some]
          by_cases hc : pids.contains (get_message_id m) = true
          · rw [if_pos hc]
            exact hrec
          · rw [if_neg hc]
            cases hp : parse_message env m (get_message_id m) with
            | ok rp =>
              rw [List.countP_cons]
              have hdec : decide (rp.source_id = get_message_id msg) = false := by
                simp only [decide_eq_false_iff_not]
                rw [parse_message_source_id env m (get_message_id m) rp hp]
                exact hmne
              rw [hdec]
              simp only [Bool.false_eq_true, if_false, Nat.add_zero]
              exact hrec
            | error e => exact hrec

theorem claim_C7_dedup_witness :
    fetch_unprocessed envFix [some goodMsg] ["<m@x>"] =
      fetch_unprocessed envFix [] ["<m@x>"] ∧
    (fetch_unprocessed envFix [some goodMsg] []).countP
      (fun r => r.source_id = get_message_id goodMsg) = 1 ∧
    ([] : List String).contains goodReceipt.source_id = false := by
  refine ⟨(claim_C7_dedup envFix).2.1 goodMsg [] ["<m@x>"] (by decide), ?_, ?_⟩
  · exact (claim_C7_dedup envFix).2.2 [some goodMsg] [] goodMsg goodReceipt rfl rfl
      (by decide) (fun mp hmp hne => absurd (by simpa using hmp) hne)
  · exact (claim_C7_dedup envFix).1 [some goodMsg] [] goodReceipt
      (by rw [show fetch_unprocessed envFix [some goodMsg] [] = [goodReceipt] from rfl]
          exact List.mem_cons_self _ _)
